import Mathlib

/-!
Verification of the semantic retrieval and answer-synthesis pipeline of the
questionnaire-assistant repository.

The development shallowly embeds the Python sources:
  * `src/api/embeddings.py`   — fingerprint encoders (`SimpleEmbeddings`,
    `EmbeddingsGenerator._features_to_vector`, `EmbeddingsGenerator._simple_embedding`),
  * `src/backend/knowledge_base.py` — the `KnowledgeBase` store and `search_similar`,
  * `src/backend/answer_generator.py` — `AnswerGenerator.generate_answer` and
    `AnswerGenerator._generate_with_claude`.

Modelling conventions:
  * Python floats are modelled as exact rationals (`ℚ`).  Every Python float is a
    rational number, and JSON serialisation of floats round-trips exactly, so the
    store-level claims are stated exactly.  The square root appearing in cosine
    similarity and in vector normalisation is irrational in general, so those
    values are interpreted in `ℝ`; the executable pipeline carries the exact
    rational data (dot products and sums of squares) the float score is computed
    from.
  * `hashlib.md5` is embedded as a full executable MD5 over the UTF-8 bytes of the
    input string.  The code reads `int(h[i:i+2], 16)` from the hex digest; since
    the hex pair at offsets `2k, 2k+1` is exactly digest byte `k`, the lemma
    `hexPairVal_hexOfBytes` connects the hex-string reading with the byte list.
  * Exceptions are modelled with `Except PyExc`; a `.error` value is a Python
    exception propagating out of the modelled function.
  * `json.loads` is embedded as a total recursive-descent parser for RFC 8259
    JSON (Python's nonstandard `NaN`/`Infinity` extensions are not modelled).
-/

/-! ## Bytes, UTF-8, hex -/

/-- UTF-8 encoding of a Unicode code point, as byte values. -/
def utf8EncodeCharNat (n : Nat) : List Nat :=
  if n < 0x80 then [n]
  else if n < 0x800 then [0xC0 + n / 64, 0x80 + n % 64]
  else if n < 0x10000 then [0xE0 + n / 4096, 0x80 + (n / 64) % 64, 0x80 + n % 64]
  else [0xF0 + n / 262144, 0x80 + (n / 4096) % 64, 0x80 + (n / 64) % 64, 0x80 + n % 64]

/-- `s.encode()` in Python: the UTF-8 bytes of a string. -/
def strBytes (s : String) : List Nat :=
  s.toList.flatMap (fun c => utf8EncodeCharNat c.toNat)

/-- Lower-case hex character for a value `< 16`. -/
def hexChar (n : Nat) : Char :=
  if n < 10 then Char.ofNat (48 + n) else Char.ofNat (87 + n)

/-- Hex representation of a byte list (two lower-case hex chars per byte),
matching Python's `hexdigest()`. -/
def hexOfBytes (bs : List Nat) : String :=
  ⟨bs.flatMap (fun b => [hexChar (b / 16), hexChar (b % 16)])⟩

/-- `int(h[i:i+2], 16)` for a hex string `h` and even offset `i`:
the base-16 value of the two characters at offsets `i, i+1`. -/
def hexPairVal (h : String) (i : Nat) : Nat :=
  let ds := h.toList.drop i
  let hv : Char → Nat := fun c =>
    if c.toNat ≥ 97 then c.toNat - 87 else c.toNat - 48
  match ds with
  | c₁ :: c₂ :: _ => 16 * hv c₁ + hv c₂
  | _ => 0

/-! ## MD5 (`hashlib.md5`) -/

namespace MD5

/-- The 64 round constants `K[i] = floor(abs(sin(i+1)) * 2^32)`. -/
def K : List Nat :=
  [3614090360, 3905402710, 606105819, 3250441966, 4118548399, 1200080426,
   2821735955, 4249261313, 1770035416, 2336552879, 4294925233, 2304563134,
   1804603682, 4254626195, 2792965006, 1236535329, 4129170786, 3225465664,
   643717713, 3921069994, 3593408605, 38016083, 3634488961, 3889429448,
   568446438, 3275163606, 4107603335, 1163531501, 2850285829, 4243563512,
   1735328473, 2368359562, 4294588738, 2272392833, 1839030562, 4259657740,
   2763975236, 1272893353, 4139469664, 3200236656, 681279174, 3936430074,
   3572445317, 76029189, 3654602809, 3873151461, 530742520, 3299628645,
   4096336452, 1126891415, 2878612391, 4237533241, 1700485571, 2399980690,
   4293915773, 2240044497, 1873313359, 4264355552, 2734768916, 1309151649,
   4149444226, 3174756917, 718787259, 3951481745]

/-- Per-round left-rotation amounts. -/
def S : List Nat :=
  [7, 12, 17, 22, 7, 12, 17, 22, 7, 12, 17, 22, 7, 12, 17, 22,
   5, 9, 14, 20, 5, 9, 14, 20, 5, 9, 14, 20, 5, 9, 14, 20,
   4, 11, 16, 23, 4, 11, 16, 23, 4, 11, 16, 23, 4, 11, 16, 23,
   6, 10, 15, 21, 6, 10, 15, 21, 6, 10, 15, 21, 6, 10, 15, 21]

/-- 32-bit left rotation. -/
def rotl (x s : Nat) : Nat :=
  ((x <<< s) % 4294967296) ||| (x >>> (32 - s))

/-- 32-bit complement. -/
def compl32 (x : Nat) : Nat := 4294967295 - x

/-- Little-endian bytes of a value, `n` bytes wide. -/
def leBytes (n x : Nat) : List Nat :=
  (List.range n).map (fun i => (x >>> (8 * i)) % 256)

/-- The 16 little-endian 32-bit words of a 64-byte block. -/
def toWords (block : List Nat) : List Nat :=
  (List.range 16).map (fun i =>
    block.getD (4 * i) 0 + 256 * block.getD (4 * i + 1) 0 +
    65536 * block.getD (4 * i + 2) 0 + 16777216 * block.getD (4 * i + 3) 0)

/-- One MD5 round: update `(A, B, C, D)` using round index `i` and block words. -/
def step (ws : List Nat) (st : Nat × Nat × Nat × Nat) (i : Nat) : Nat × Nat × Nat × Nat :=
  let (a, b, c, d) := st
  let (f, g) :=
    if i < 16 then ((b &&& c) ||| (compl32 b &&& d), i)
    else if i < 32 then ((d &&& b) ||| (compl32 d &&& c), (5 * i + 1) % 16)
    else if i < 48 then (b ^^^ c ^^^ d, (3 * i + 5) % 16)
    else (c ^^^ (b ||| compl32 d), (7 * i) % 16)
  let f' := (f + a + K.getD i 0 + ws.getD g 0) % 4294967296
  (d, (b + rotl f' (S.getD i 0)) % 4294967296, b, c)

/-- Process one 64-byte block, updating the running digest state. -/
def processBlock (st : Nat × Nat × Nat × Nat) (block : List Nat) : Nat × Nat × Nat × Nat :=
  let ws := toWords block
  let (a, b, c, d) := (List.range 64).foldl (step ws) st
  ((st.1 + a) % 4294967296, (st.2.1 + b) % 4294967296,
   (st.2.2.1 + c) % 4294967296, (st.2.2.2 + d) % 4294967296)

/-- Split a byte list into 64-byte chunks (structural recursion on a fuel
bound so the kernel can evaluate it; the fuel never runs out since each
step consumes at least one element). -/
def chunks64Fuel : Nat → List Nat → List (List Nat)
  | 0, _ => []
  | _, [] => []
  | fuel + 1, a :: rest => ((a :: rest).take 64) :: chunks64Fuel fuel ((a :: rest).drop 64)

/-- Split a byte list into 64-byte chunks. -/
def chunks64 (l : List Nat) : List (List Nat) := chunks64Fuel (l.length + 1) l

/-- MD5 padding for a message of `len` bytes: `0x80`, zeros to 56 mod 64,
then the bit length as 8 little-endian bytes. -/
def padding (len : Nat) : List Nat :=
  0x80 :: List.replicate ((55 - len % 64 + 64) % 64) 0 ++ leBytes 8 ((8 * len) % 18446744073709551616)

/-- The 16-byte MD5 digest of a byte list. -/
def digestBytes (msg : List Nat) : List Nat :=
  let padded := msg ++ padding msg.length
  let (a, b, c, d) :=
    (chunks64 padded).foldl processBlock (0x67452301, 0xefcdab89, 0x98badcfe, 0x10325476)
  leBytes 4 a ++ leBytes 4 b ++ leBytes 4 c ++ leBytes 4 d

end MD5

/-- `hashlib.md5(s.encode()).digest()` as a byte list. -/
def md5Bytes (s : String) : List Nat := MD5.digestBytes (strBytes s)

/-- `hashlib.md5(s.encode()).hexdigest()`. -/
def md5Hex (s : String) : String := hexOfBytes (md5Bytes s)

example : md5Hex "" = "d41d8cd98f00b204e9800998ecf8427e" := by decide
example : md5Hex "hello" = "5d41402abc4b2a76b9719d911017c592" := by decide
example : md5Hex "The quick brown fox jumps over the lazy dog" =
    "9e107d9d372bb6826bd81d3542a419d6" := by decide

/-! ## Rational vector arithmetic -/

/-- Sum of squares of a vector (the square of its Euclidean norm). -/
def sumSq (v : List ℚ) : ℚ := (v.map (fun x => x * x)).sum

/-- Dot product (`np.dot` on equal-length vectors). -/
def dotQ (a b : List ℚ) : ℚ := (List.zipWith (· * ·) a b).sum

/-! ## Tokenisation (`re.findall(r"\b\w+\b", text.lower())`)

The regex `\b\w+\b` applied with `findall` returns the maximal runs of
word characters.  Word characters are modelled as the ASCII range of
Python's `\w`: letters, digits and underscore. -/

/-- ASCII word character. -/
def wordChar (c : Char) : Bool := c.isAlphanum || c = '_'

/-- Python `str.lower()` (ASCII case folding). -/
def pyLower (s : String) : String := ⟨s.toList.map Char.toLower⟩

/-- Collect maximal runs of word characters.  `run` holds the current
run in reverse order. -/
def tokenAux : List Char → List Char → List String
  | [], [] => []
  | [], run => [⟨run.reverse⟩]
  | c :: cs, run =>
    if wordChar c then tokenAux cs (c :: run)
    else if run.isEmpty then tokenAux cs []
    else ⟨run.reverse⟩ :: tokenAux cs []

/-- `re.findall(r"\b\w+\b", text.lower())`. -/
def findallWords (text : String) : List String := tokenAux (pyLower text).toList []

/-- The stop-word set of `SimpleEmbeddings.generate_embedding`, transcribed
verbatim from `src/api/embeddings.py`. -/
def stopWords : List String :=
  ["the", "a", "an", "is", "are", "was", "were", "be", "been", "being", "have",
   "has", "had", "do", "does", "did", "will", "would", "could", "should", "may",
   "might", "must", "shall", "can", "need", "dare", "ought", "used", "to", "of",
   "in", "for", "on", "with", "at", "by", "from", "as", "into", "through",
   "during", "before", "after", "above", "below", "between", "under", "again",
   "further", "then", "once", "and", "but", "or", "nor", "so", "yet", "both",
   "either", "neither", "not", "only", "own", "same", "than", "too", "very",
   "just", "also", "your", "you", "our", "we", "they", "their", "this", "that",
   "these", "those", "what", "which", "who", "whom", "how", "when", "where",
   "why", "all", "each", "every", "any", "some", "no", "none"]

/-- The tokens `SimpleEmbeddings` keeps:
`[w for w in words if w not in stop_words and len(w) > 2]`. -/
def keptWords (text : String) : List String :=
  (findallWords text).filter (fun w => !stopWords.contains w && w.length > 2)

/-! ## Hash-bucket vectors -/

/-- `vector[pos] += 1.0` (no-op beyond the vector length, which never
happens for in-range positions). -/
def bump (v : List ℚ) (pos : Nat) : List ℚ := v.set pos (v.getD pos 0 + 1)

/-- `range(0, stop, 2)` for Python's step-2 ranges from zero. -/
def pyRange2 (stop : Nat) : List Nat := List.range' 0 ((stop + 1) / 2) 2

/-- For one token: `h = md5(word).hexdigest()`, then for each `i` in the given
index list, `pos = int(h[i:i+2], 16) % dim; vector[pos] += 1.0`. -/
def addTokenBuckets (dim : Nat) (pairIdxs : List Nat) (v : List ℚ) (w : String) : List ℚ :=
  let h := md5Hex w
  pairIdxs.foldl (fun v i => bump v (hexPairVal h i % dim)) v

/-- Pre-normalisation bucket vector of `SimpleEmbeddings.generate_embedding`:
filtered tokens, 4 hex byte-pairs per token (`range(0, 8, 2)`). -/
def rawLocalVec (text : String) (dim : Nat := 256) : List ℚ :=
  (keptWords text).foldl (addTokenBuckets dim (pyRange2 8)) (List.replicate dim 0)

/-- Pre-normalisation bucket vector of `EmbeddingsGenerator._simple_embedding`:
unfiltered tokens, 2 hex byte-pairs per token (`range(0, 4, 2)`). -/
def rawSimpleVec (text : String) (dim : Nat := 256) : List ℚ :=
  (findallWords text).foldl (addTokenBuckets dim (pyRange2 4)) (List.replicate dim 0)

/-- Pre-normalisation bucket vector of `EmbeddingsGenerator._features_to_vector`:
one bucket update per hex byte-pair, `range(0, min(len(h), 8), 2)` pairs per
feature (the hex digest has 32 characters, so this is `range(0, 8, 2)`). -/
def rawFeaturesVec (features : List String) (dim : Nat := 256) : List ℚ :=
  features.foldl
    (fun v w => addTokenBuckets dim (pyRange2 (min (md5Hex w).length 8)) v w)
    (List.replicate dim 0)

/-! ## Normalisation

`magnitude = sum(v * v for v in vector) ** 0.5; if magnitude > 0: divide`.
The square root is interpreted exactly in `ℝ`; note `x ** 0.5 > 0` iff the
sum of squares is positive. -/

/-- Sum of squares over `ℝ`. -/
noncomputable def sumSqR (v : List ℝ) : ℝ := (v.map (fun x => x * x)).sum

/-- The final normalisation step shared by all three encoders. -/
noncomputable def normalizeVec (v : List ℝ) : List ℝ :=
  let m := Real.sqrt (sumSqR v)
  if 0 < m then v.map (· / m) else v

namespace SimpleEmbeddings

/-- `SimpleEmbeddings.generate_embedding` (the local strategy): bucket
vector of the filtered tokens, then normalisation. -/
noncomputable def generate_embedding (text : String) (dim : Nat := 256) : List ℝ :=
  normalizeVec ((rawLocalVec text dim).map (fun q : ℚ => (q : ℝ)))

end SimpleEmbeddings

namespace EmbeddingsGenerator

/-- `EmbeddingsGenerator._features_to_vector` (assisted strategy, given the
feature phrases returned by the generation service). -/
noncomputable def features_to_vector (features : List String) (dim : Nat := 256) : List ℝ :=
  normalizeVec ((rawFeaturesVec features dim).map (fun q : ℚ => (q : ℝ)))

/-- `EmbeddingsGenerator._simple_embedding` (raw-word fallback scheme). -/
noncomputable def simple_embedding (text : String) (dim : Nat := 256) : List ℝ :=
  normalizeVec ((rawSimpleVec text dim).map (fun q : ℚ => (q : ℝ)))

end EmbeddingsGenerator

/-! ## Knowledge store (`src/backend/knowledge_base.py`)

The SQLite table is modelled as the list of rows in insertion (rowid) order
together with the next autoincrement id.  `json.dumps`/`json.loads` of a float
list round-trips exactly, so a stored embedding is modelled as the list itself;
the Python truthiness test `if embedding` maps both `None` and the empty list
to a NULL column. -/

/-- A row of the `qa_pairs` table, as returned by `get_all` (the dataclass
`StoredQA` of the source). -/
structure StoredQA where
  id : Nat
  question : String
  answer : String
  source_file : String
  category : String
  embedding : Option (List ℚ) := none
deriving DecidableEq, Repr

/-- The persistent state behind a `KnowledgeBase`. -/
structure KnowledgeBase where
  records : List StoredQA := []
  next_id : Nat := 1
deriving DecidableEq, Repr

/-- `embedding_json = json.dumps(embedding) if embedding else None`:
Python truthiness sends both `None` and `[]` to NULL. -/
def storedEmbedding (embedding : Option (List ℚ)) : Option (List ℚ) :=
  match embedding with
  | some v => if v.isEmpty then none else some v
  | none => none

namespace KnowledgeBase

/-- `add_qa_pair`: insert one row, returning the new state and the row id. -/
def add_qa_pair (kb : KnowledgeBase) (question answer source_file : String)
    (category : String := "") (embedding : Option (List ℚ) := none) :
    KnowledgeBase × Nat :=
  (⟨kb.records ++
      [{ id := kb.next_id, question := question, answer := answer,
         source_file := source_file, category := category,
         embedding := storedEmbedding embedding }],
    kb.next_id + 1⟩,
   kb.next_id)

/-- A dict element of the `qa_pairs` argument of `add_qa_pairs_batch`:
`qa["question"]`, `qa["answer"]`, `qa.get("source_file", "")`,
`qa.get("category", "")`, `qa.get("embedding")`. -/
structure QAInput where
  question : String
  answer : String
  source_file : String := ""
  category : String := ""
  embedding : Option (List ℚ) := none
deriving DecidableEq, Repr

/-- `add_qa_pairs_batch`: insert the rows in order, returning the ids. -/
def add_qa_pairs_batch (kb : KnowledgeBase) (qa_pairs : List QAInput) :
    KnowledgeBase × List Nat :=
  qa_pairs.foldl
    (fun acc qa =>
      let r := acc.1.add_qa_pair qa.question qa.answer qa.source_file qa.category qa.embedding
      (r.1, acc.2 ++ [r.2]))
    (kb, [])

/-- `get_all`: all rows in rowid order. -/
def get_all (kb : KnowledgeBase) : List StoredQA := kb.records

end KnowledgeBase

/-! ## Similarity search (`KnowledgeBase.search_similar`)

The float score `np.dot(q, v) / (np.linalg.norm(q) * np.linalg.norm(v))` is
carried symbolically as the pair `(dotQ q v, sumSq v)` (the query's sum of
squares is determined by the query); its numeric value is `simVal` below.
Sorting compares scores through the decidable rational test `scoreLe`, which
agrees with comparison of the real values (`scoreLe_iff_simVal_le`). -/

/-- Python truthiness of `qa.embedding`: present and non-empty. -/
def recordHasEmbedding (qa : StoredQA) : Bool :=
  match qa.embedding with
  | some v => !v.isEmpty
  | none => false

/-- The real value of a symbolic score: `dot / (‖query‖ * ‖candidate‖)`,
with `q2`/`c2` the sums of squares of the query and the candidate. -/
noncomputable def simVal (q2 : ℚ) (s : ℚ × ℚ) : ℝ :=
  (s.1 : ℝ) / (Real.sqrt (q2 : ℝ) * Real.sqrt (s.2 : ℝ))

/-- The signed square of a score `(dot, c2)`: the image of the cosine value
`dot / (‖query‖ * √c2)` under the strictly monotone map `u ↦ sign(u) * u²`,
scaled by the positive constant `‖query‖²`.  This rational key orders scores
exactly as their real values do (`scoreLe_iff_simVal_le`) while remaining
decidable. -/
def signedSq (x : ℚ × ℚ) : ℚ :=
  if 0 ≤ x.1 then x.1 ^ 2 / x.2 else -(x.1 ^ 2 / x.2)

/-- Decidable comparison of two scores `(dot, c2)` against the same query:
decides `x.1/√x.2 ≤ y.1/√y.2` by comparing signed squares. -/
def scoreLe (x y : ℚ × ℚ) : Bool := signedSq x ≤ signedSq y

/-- Descending comparison used for `similarities.sort(key=lambda x: x[1],
reverse=True)` (a stable sort, so ties keep their original order). -/
def scoreDescLe (a b : StoredQA × ℚ × ℚ) : Bool := scoreLe b.2 a.2

/-- The scored candidates, in storage order: rows whose embedding is truthy
and whose vector — like the query — has positive magnitude
(`query_norm > 0 and qa_norm > 0`; the float `s ** 0.5` is positive exactly
when the rational `s` is). -/
def scoredEntries (records : List StoredQA) (query : List ℚ) : List (StoredQA × ℚ × ℚ) :=
  (records.filter recordHasEmbedding).filterMap fun qa =>
    match qa.embedding with
    | some v =>
      if 0 < sumSq query ∧ 0 < sumSq v then some (qa, dotQ query v, sumSq v) else none
    | none => none

/-- `KnowledgeBase.search_similar`. -/
def KnowledgeBase.search_similar (kb : KnowledgeBase) (query_embedding : List ℚ)
    (top_k : Nat := 5) : List (StoredQA × ℚ × ℚ) :=
  let all_qa := kb.get_all
  let qa_with_embeddings := all_qa.filter recordHasEmbedding
  if qa_with_embeddings.isEmpty then []
  else ((scoredEntries all_qa query_embedding).mergeSort scoreDescLe).take top_k

/-! ## Python exceptions and JSON (`json.loads`) -/

/-- The Python exception classes relevant to `_generate_with_claude`:
the three classes named in its `except` clause, `TypeError` (raised by
`int()` on `None`/lists/dicts and *not* caught), and the service-client
errors raised by the hosted-API call (also not caught). -/
inductive PyExc where
  | jsonDecodeError (msg : String)
  | valueError (msg : String)
  | keyError (msg : String)
  | typeError (msg : String)
  | apiError (msg : String)
deriving DecidableEq, Repr

/-- `str(e)`. -/
def PyExc.msg : PyExc → String
  | .jsonDecodeError m => m
  | .valueError m => m
  | .keyError m => m
  | .typeError m => m
  | .apiError m => m

/-- Membership in `except (json.JSONDecodeError, ValueError, KeyError)`
(`json.JSONDecodeError` is itself a subclass of `ValueError`). -/
def PyExc.caughtByGenerate : PyExc → Bool
  | .jsonDecodeError _ => true
  | .valueError _ => true
  | .keyError _ => true
  | .typeError _ => false
  | .apiError _ => false

/-- JSON values (`json.loads` results: `None`, `bool`, `int`/`float`,
`str`, `list`, `dict`; numbers carried exactly as rationals). -/
inductive Json where
  | null
  | bool (b : Bool)
  | num (q : ℚ)
  | str (s : String)
  | arr (xs : List Json)
  | obj (fields : List (String × Json))


/-- Hex digit value of a character. -/
def hexCharVal (c : Char) : Nat :=
  if c.toNat ≥ 97 then c.toNat - 87
  else if c.toNat ≥ 65 then c.toNat - 55
  else c.toNat - 48

/-- Hex digit test (`0-9a-fA-F`). -/
def isHexDigitChar (c : Char) : Bool :=
  c.isDigit || (97 ≤ c.toNat && c.toNat ≤ 102) || (65 ≤ c.toNat && c.toNat ≤ 70)

/-- JSON whitespace (the four characters `json.loads` skips). -/
def jWs (c : Char) : Bool := c = ' ' || c = '\t' || c = '\n' || c = '\r'

/-- Skip JSON whitespace. -/
def jEatWs (cs : List Char) : List Char := cs.dropWhile jWs

/-- Decimal value of a digit run. -/
def digitsVal (ds : List Char) : Nat := ds.foldl (fun a c => 10 * a + (c.toNat - 48)) 0

/-- Parse a JSON number at the head of the input
(`-?(0|[1-9][0-9]*)(\.[0-9]+)?([eE][+-]?[0-9]+)?`), returning its exact
rational value and the rest of the input. -/
def parseJNumber (cs : List Char) : Option (ℚ × List Char) :=
  let (neg, cs₁) := match cs with | '-' :: r => (true, r) | _ => (false, cs)
  let ds := cs₁.takeWhile Char.isDigit
  let r₁ := cs₁.dropWhile Char.isDigit
  if ds.isEmpty then none
  else if 1 < ds.length ∧ ds.head? = some '0' then none
  else
    let (fracOk, fracVal, r₂) : Bool × ℚ × List Char :=
      match r₁ with
      | '.' :: r =>
        let fs := r.takeWhile Char.isDigit
        (!fs.isEmpty, (digitsVal fs : ℚ) / (10 : ℚ) ^ fs.length, r.dropWhile Char.isDigit)
      | _ => (true, 0, r₁)
    if !fracOk then none
    else
      let (expOk, expVal, r₃) : Bool × Int × List Char :=
        match r₂ with
        | 'e' :: r | 'E' :: r =>
          let (esign, r') : Int × List Char :=
            match r with | '+' :: r'' => (1, r'') | '-' :: r'' => (-1, r'') | _ => (1, r)
          let es := r'.takeWhile Char.isDigit
          (!es.isEmpty, esign * (digitsVal es : Int), r'.dropWhile Char.isDigit)
        | _ => (true, 0, r₂)
      if !expOk then none
      else
        let base : ℚ := (digitsVal ds : ℚ) + fracVal
        let scaled : ℚ :=
          if 0 ≤ expVal then base * (10 : ℚ) ^ expVal.toNat
          else base / (10 : ℚ) ^ (-expVal).toNat
        some (if neg then -scaled else scaled, r₃)

/-- Parse the body of a JSON string after the opening quote, accumulating
characters in reverse.  Control characters must be escaped; `\uXXXX`
escapes are decoded, pairing surrogates. -/
def parseJStringBody : List Char → List Char → Option (String × List Char)
  | [], _ => none
  | '"' :: r, acc => some (⟨acc.reverse⟩, r)
  | '\\' :: 'u' :: h₁ :: h₂ :: h₃ :: h₄ :: r, acc =>
    if isHexDigitChar h₁ && isHexDigitChar h₂ && isHexDigitChar h₃ && isHexDigitChar h₄ then
      let n := 4096 * hexCharVal h₁ + 256 * hexCharVal h₂ + 16 * hexCharVal h₃ + hexCharVal h₄
      if n < 0xD800 ∨ 0xE000 ≤ n then parseJStringBody r (Char.ofNat n :: acc)
      else match r with
        | '\\' :: 'u' :: g₁ :: g₂ :: g₃ :: g₄ :: r' =>
          if isHexDigitChar g₁ && isHexDigitChar g₂ && isHexDigitChar g₃ && isHexDigitChar g₄ then
            let m := 4096 * hexCharVal g₁ + 256 * hexCharVal g₂ + 16 * hexCharVal g₃ + hexCharVal g₄
            if n < 0xDC00 ∧ 0xDC00 ≤ m ∧ m < 0xE000 then
              parseJStringBody r' (Char.ofNat (0x10000 + (n - 0xD800) * 1024 + (m - 0xDC00)) :: acc)
            else none
          else none
        | _ => none
    else none
  | '\\' :: e :: r, acc =>
    (match e with
     | '"' => some '"' | '\\' => some '\\' | '/' => some '/'
     | 'b' => some (Char.ofNat 8) | 'f' => some (Char.ofNat 12)
     | 'n' => some '\n' | 'r' => some '\r' | 't' => some '\t'
     | _ => none).bind fun c => parseJStringBody r (c :: acc)
  | c :: r, acc => if c.toNat < 0x20 then none else parseJStringBody r (c :: acc)


/-! ## The JSON value parser

Fuel-indexed recursive descent.  The three mutually recursive parsing
states (value, object members, array elements) are folded into one
function over a task datatype so that the recursion is structural on the
fuel and reduces in the kernel.  Every recursive call strictly consumes
input, so fuel `length + 2` always suffices (`loads` supplies it). -/

/-- A pending parsing task: a value, the members of an object
(accumulated in reverse), or the elements of an array. -/
inductive JTask where
  | value (cs : List Char)
  | members (cs : List Char) (first : Bool) (acc : List (String × Json))
  | elems (cs : List Char) (first : Bool) (acc : List Json)

/-- Run a parsing task. -/
def parseJ : Nat → JTask → Option (Json × List Char)
  | 0, _ => none
  | fuel + 1, .value cs =>
    match cs with
    | [] => none
    | '{' :: rest => parseJ fuel (.members (jEatWs rest) true [])
    | '[' :: rest => parseJ fuel (.elems (jEatWs rest) true [])
    | '"' :: rest => (parseJStringBody rest []).map (fun p => (.str p.1, p.2))
    | 't' :: 'r' :: 'u' :: 'e' :: rest => some (.bool true, rest)
    | 'f' :: 'a' :: 'l' :: 's' :: 'e' :: rest => some (.bool false, rest)
    | 'n' :: 'u' :: 'l' :: 'l' :: rest => some (.null, rest)
    | _ => (parseJNumber cs).map (fun p => (.num p.1, p.2))
  | fuel + 1, .members cs first acc =>
    match cs with
    | '}' :: rest =>
      if first then some (.obj acc.reverse, rest) else none
    | '"' :: rest =>
      match parseJStringBody rest [] with
      | none => none
      | some (key, r₁) =>
        match jEatWs r₁ with
        | ':' :: r₂ =>
          match parseJ fuel (.value (jEatWs r₂)) with
          | none => none
          | some (v, r₃) =>
            match jEatWs r₃ with
            | ',' :: r₄ => parseJ fuel (.members (jEatWs r₄) false ((key, v) :: acc))
            | '}' :: r₄ => some (.obj ((key, v) :: acc).reverse, r₄)
            | _ => none
        | _ => none
    | _ => none
  | fuel + 1, .elems cs first acc =>
    match cs with
    | ']' :: rest =>
      if first then some (.arr acc.reverse, rest) else none
    | _ =>
      match parseJ fuel (.value cs) with
      | none => none
      | some (v, r₁) =>
        match jEatWs r₁ with
        | ',' :: r₂ => parseJ fuel (.elems (jEatWs r₂) false (v :: acc))
        | ']' :: r₂ => some (.arr (v :: acc).reverse, r₂)
        | _ => none

/-- Parse one JSON value at the head of the input. -/
def parseJValue (fuel : Nat) (cs : List Char) : Option (Json × List Char) :=
  parseJ fuel (.value cs)

/-- `json.loads`: parse a complete JSON document; anything else raises
`json.JSONDecodeError`. -/
def loads (s : String) : Except PyExc Json :=
  let cs := jEatWs s.toList
  match parseJValue (cs.length + 2) cs with
  | some (v, r) =>
    if (jEatWs r).isEmpty then .ok v
    else .error (.jsonDecodeError "Extra data")
  | none => .error (.jsonDecodeError "Expecting value")

/-- Lookup in a parsed JSON object (`dict.get(key)`); with duplicate keys
Python's dict keeps the last occurrence. -/
def objGet (fields : List (String × Json)) (k : String) : Option Json :=
  ((fields.filter (fun p => p.1 == k)).getLast?).map (·.2)

/-- Truncation toward zero, the behaviour of Python's `int()` on numbers. -/
def ratTrunc (q : ℚ) : Int := q.num.tdiv q.den

/-- `int(s)` for a string: optional surrounding whitespace, optional sign,
then a non-empty digit run; anything else raises `ValueError`. -/
def pyIntOfString (s : String) : Except PyExc Int :=
  let cs := (s.toList.dropWhile Char.isWhitespace).reverse
  let cs := (cs.dropWhile Char.isWhitespace).reverse
  let (sign, ds) : Int × List Char :=
    match cs with
    | '-' :: r => (-1, r)
    | '+' :: r => (1, r)
    | _ => (1, cs)
  if !ds.isEmpty && ds.all Char.isDigit then .ok (sign * (digitsVal ds : Int))
  else .error (.valueError "invalid literal for int()")

/-- `int(x)` on a JSON value: numbers truncate toward zero, strings are
parsed, bools map to 0/1; `None`, lists and dicts raise `TypeError`
(which the generator's `except` clause does **not** catch). -/
def pyInt : Json → Except PyExc Int
  | .num q => .ok (ratTrunc q)
  | .str s => pyIntOfString s
  | .bool b => .ok (if b then 1 else 0)
  | .null => .error (.typeError "int() argument must be a string or a number, not NoneType")
  | .arr _ => .error (.typeError "int() argument must be a string or a number, not list")
  | .obj _ => .error (.typeError "int() argument must be a string or a number, not dict")

/-! ## Answer generator (`src/backend/answer_generator.py`) -/

/-- An element of `context_pairs`: question, answer, source and similarity
percentage (the float `round(similarity * 100, 1)`, an exact rational). -/
structure CtxPair where
  question : String
  answer : String
  source : String
  similarity : ℚ
deriving Repr

/-- The `GeneratedAnswer` dataclass.  Python does not enforce the dataclass
field annotations: on the parse path `result.get(...)` can store an
arbitrary JSON value in `suggested_answer`, `needs_review` and `reasoning`,
so those fields are modelled as `Json`. -/
structure GeneratedAnswer where
  question : String
  suggested_answer : Json
  confidence : Int
  needs_review : Json
  source_questions : List CtxPair
  reasoning : Json

/-- Python `str.strip()`: remove leading and trailing whitespace. -/
def pyStrip (s : String) : String :=
  ⟨((s.toList.dropWhile Char.isWhitespace).reverse.dropWhile Char.isWhitespace).reverse⟩

/-- `result_text.startswith("{")`. -/
def headIsLBrace (s : String) : Bool :=
  match s.toList with | c :: _ => c = '{' | [] => false

/-- `re.search(r"\{.*\}", text, re.DOTALL)`: with a greedy `.*` this matches
from the *first* `{` to the *last* `}` of the whole text, when that span
exists. -/
def braceExtract (cs : List Char) : Option (List Char) :=
  let t := cs.dropWhile (fun c => !(c = '{'))
  let u := (t.reverse.dropWhile (fun c => !(c = '}'))).reverse
  if u.isEmpty then none else some u

/-- The regex search on a string. -/
def reSearchBraces (s : String) : Option String :=
  (braceExtract s.toList).map (fun l => ⟨l⟩)

/-- The two-stage parse of the service response (lines 109–118 of
`answer_generator.py`): a payload that starts with `{` is handed directly to
`json.loads`; otherwise the brace-delimited span found by the regex is; if
there is no match, `ValueError("No JSON found in response")` is raised. -/
def parsePayload (result_text : String) : Except PyExc Json :=
  if headIsLBrace result_text then loads result_text
  else
    match reSearchBraces result_text with
    | some m => loads m
    | none => .error (.valueError "No JSON found in response")

namespace AnswerGenerator

/-- The body of the `try:` block of `_generate_with_claude`, given the
outcome of the service call (`.error` if `self.client.messages.create`
raised; `.ok text` with the response text otherwise). -/
def attemptGenerate (question : String) (similar_pairs : List CtxPair)
    (service : Except PyExc String) : Except PyExc GeneratedAnswer := do
  let text ← service
  let result_text := pyStrip text
  let result ← parsePayload result_text
  -- a successfully parsed payload necessarily starts with `{`,
  -- so it is always a JSON object; the wildcard row is unreachable
  let fields := match result with | .obj fs => fs | _ => []
  let confidence ← pyInt ((objGet fields "confidence").getD (.num 50))
  .ok { question := question,
        suggested_answer := (objGet fields "answer").getD (.str ""),
        confidence := confidence,
        needs_review := (objGet fields "needs_review").getD (.bool (confidence < 70)),
        source_questions := similar_pairs,
        reasoning := (objGet fields "reasoning").getD (.str "") }

/-- `_generate_with_claude`: the `try:` body above wrapped in
`except (json.JSONDecodeError, ValueError, KeyError)`, whose handler falls
back to the best stored match (or, with no candidates, to an error text);
any other exception — e.g. a service/API error or a `TypeError` from
`int()` — propagates to the caller. -/
def generate_with_claude (question : String) (similar_pairs : List CtxPair)
    (service : Except PyExc String) : Except PyExc GeneratedAnswer :=
  match attemptGenerate question similar_pairs service with
  | .ok r => .ok r
  | .error e =>
    if e.caughtByGenerate then
      match similar_pairs with
      | best :: _ =>
        .ok { question := question,
              suggested_answer := .str best.answer,
              confidence := ratTrunc best.similarity,
              needs_review := .bool true,
              source_questions := similar_pairs,
              reasoning := .str ("Direct match from: " ++ best.source) }
      | [] =>
        .ok { question := question,
              suggested_answer := .str "",
              confidence := 0,
              needs_review := .bool true,
              source_questions := [],
              reasoning := .str ("Error generating answer: " ++ e.msg) }
    else .error e

/-- `generate_answer`.  Two aspects live outside the exact-rational model and
are taken as parameters: `emb` is `self.embeddings.generate_embedding`, i.e.
the float fingerprint of the question (float components are exact rationals),
and `pct` is the float computation `round(similarity * 100, 1)` applied to the
float cosine score, given the exact data `(q2, (dot, c2))` the score is
computed from.  Neither parameter affects which branch is taken. -/
def generate_answer (emb : String → List ℚ) (pct : ℚ → ℚ × ℚ → ℚ)
    (kb : KnowledgeBase) (question : String) (service : Except PyExc String) :
    Except PyExc GeneratedAnswer :=
  let query_embedding := emb question
  let similar := kb.search_similar query_embedding 5
  let context_pairs := similar.map (fun e =>
    { question := e.1.question, answer := e.1.answer, source := e.1.source_file,
      similarity := pct (sumSq query_embedding) e.2 : CtxPair })
  if context_pairs.isEmpty then
    .ok { question := question,
          suggested_answer := .str "",
          confidence := 0,
          needs_review := .bool true,
          source_questions := [],
          reasoning := .str "No similar questions found in knowledge base." }
  else generate_with_claude question context_pairs service

end AnswerGenerator

/-- Apply `bump` at each position in turn. -/
def bumpList (v : List ℚ) (ps : List Nat) : List ℚ := ps.foldl bump v

/-- The ranked list before truncation. -/
def ranking (records : List StoredQA) (query : List ℚ) : List (StoredQA × ℚ × ℚ) :=
  (scoredEntries records query).mergeSort scoreDescLe

/-- The bucket positions of one token in the local (4-pair) scheme. -/
def localPositions (dim : Nat) (w : String) : List Nat :=
  (pyRange2 8).map (fun i => hexPairVal (md5Hex w) i % dim)

/-- The bucket positions of one token in the fallback (2-pair) scheme. -/
def fallbackPositions (dim : Nat) (w : String) : List Nat :=
  (pyRange2 4).map (fun i => hexPairVal (md5Hex w) i % dim)

/-- The `context_pairs` built by `generate_answer` from the search results
(`q2` is the query's sum of squares; `pct` the float percentage function,
see `generate_answer`). -/
def contextPairsOf (pct : ℚ → ℚ × ℚ → ℚ) (q2 : ℚ)
    (similar : List (StoredQA × ℚ × ℚ)) : List CtxPair :=
  similar.map (fun x =>
    { question := x.1.question, answer := x.1.answer, source := x.1.source_file,
      similarity := pct q2 x.2 })

/-! ## C7: the bucket schemes, stated from the claim's wording -/

/-- Modelled from the claim's wording (local scheme): tokenize on word
boundaries, case-fold, drop tokens of length ≤ 2 and stop-list tokens;
bucket `j` holds one count for every surviving token occurrence and every
one of the 4 non-overlapping byte pairs of its hash digest whose value,
reduced modulo the dimension, selects `j`. -/
def specLocalVec (text : String) (dim : Nat) : List ℚ :=
  (List.range dim).map (fun j =>
    ((keptWords text).map (fun w =>
      (((((md5Bytes w).take 4).map (· % dim)).count j : ℕ) : ℚ))).sum)

/-- Modelled from the claim's wording (raw-word fallback scheme), amended:
per token occurrence the scheme uses **2** byte pairs of the digest (the
claim's "1 bucket position per token" is refuted by
`C7_fallback_not_one_position`), with no stop-word or length filtering. -/
def specFallbackVec (text : String) (dim : Nat) : List ℚ :=
  (List.range dim).map (fun j =>
    ((findallWords text).map (fun w =>
      (((((md5Bytes w).take 2).map (· % dim)).count j : ℕ) : ℚ))).sum)

/-! ## Correctness of the score comparison -/

theorem scoreLe_total (x y : ℚ × ℚ) : scoreLe x y || scoreLe y x := by
  simp only [scoreLe, Bool.or_eq_true, decide_eq_true_eq]
  exact le_total _ _

theorem scoreLe_trans {x y z : ℚ × ℚ} (h₁ : scoreLe x y) (h₂ : scoreLe y z) :
    scoreLe x z := by
  simp only [scoreLe, decide_eq_true_eq] at h₁ h₂ ⊢
  exact le_trans h₁ h₂

/-- The map `u ↦ sign(u) · u²` is strictly monotone on `ℝ`. -/
theorem strictMono_signSquare :
    StrictMono (fun u : ℝ => if 0 ≤ u then u ^ 2 else -(u ^ 2)) := by
  intro u v huv
  by_cases hu : 0 ≤ u <;> by_cases hv : 0 ≤ v <;> simp only [hu, hv, if_true, if_false] <;>
    nlinarith

/-- For scores with positive candidate magnitude (and a positive query
magnitude), the decidable comparison `scoreLe` holds exactly when the real
cosine values compare accordingly. -/
theorem scoreLe_iff_simVal_le (q2 : ℚ) (x y : ℚ × ℚ)
    (hq : 0 < q2) (hx : 0 < x.2) (hy : 0 < y.2) :
    scoreLe x y = true ↔ simVal q2 x ≤ simVal q2 y := by
  have hqR : (0:ℝ) < (q2 : ℝ) := by exact_mod_cast hq
  have key : ∀ z : ℚ × ℚ, 0 < z.2 →
      (fun u : ℝ => if 0 ≤ u then u ^ 2 else -(u ^ 2)) (simVal q2 z) =
        ((signedSq z : ℚ) : ℝ) / (q2 : ℝ) := by
    intro z hz
    have hzR : (0:ℝ) < (z.2 : ℝ) := by exact_mod_cast hz
    have hP : 0 < Real.sqrt (q2 : ℝ) := Real.sqrt_pos.mpr hqR
    have hA : 0 < Real.sqrt (z.2 : ℝ) := Real.sqrt_pos.mpr hzR
    have hsq : Real.sqrt (q2 : ℝ) ^ 2 = (q2 : ℝ) := Real.sq_sqrt hqR.le
    have hsz : Real.sqrt (z.2 : ℝ) ^ 2 = (z.2 : ℝ) := Real.sq_sqrt hzR.le
    have hsign : (0 ≤ simVal q2 z) ↔ (0 ≤ (z.1 : ℝ)) := by
      unfold simVal
      rw [le_div_iff₀ (mul_pos hP hA), zero_mul]
    have hval : simVal q2 z ^ 2 = ((z.1 : ℝ) ^ 2 / z.2) / q2 := by
      unfold simVal
      rw [div_pow, mul_pow, hsq, hsz]
      ring
    by_cases h1 : 0 ≤ z.1
    · have h1R : (0 : ℝ) ≤ ((z.1 : ℚ)) := by exact_mod_cast h1
      have hss : signedSq z = z.1 ^ 2 / z.2 := by simp [signedSq, h1]
      simp only [hsign.mpr h1R, if_true, hval, hss]
      push_cast
      ring
    · have h1R : ¬ (0 : ℝ) ≤ ((z.1 : ℚ)) := by
        intro hc
        exact h1 (by exact_mod_cast hc)
      have hss : signedSq z = -(z.1 ^ 2 / z.2) := by simp [signedSq, h1]
      simp only [hsign, h1R, if_false, hval, hss]
      push_cast
      ring
  have h1 : (scoreLe x y = true) ↔ (signedSq x ≤ signedSq y) := by simp [scoreLe]
  have h2 : (signedSq x ≤ signedSq y) ↔
      (((signedSq x : ℚ) : ℝ) / (q2 : ℝ) ≤ ((signedSq y : ℚ) : ℝ) / (q2 : ℝ)) := by
    rw [div_le_div_iff_of_pos_right hqR, Rat.cast_le]
  rw [h1, h2, ← key x hx, ← key y hy]
  exact strictMono_signSquare.le_iff_le

/-! ## Search pipeline lemmas -/

theorem recordHasEmbedding_iff (qa : StoredQA) :
    recordHasEmbedding qa = true ↔ ∃ v, qa.embedding = some v ∧ v ≠ [] := by
  unfold recordHasEmbedding
  rcases h : qa.embedding with _ | v
  · simp
  · simp [List.isEmpty_iff]

theorem mem_scoredEntries (records : List StoredQA) (query : List ℚ)
    (qa : StoredQA) (s : ℚ × ℚ) :
    (qa, s) ∈ scoredEntries records query ↔
      (qa ∈ records ∧ ∃ v, qa.embedding = some v ∧ v ≠ [] ∧
        0 < sumSq query ∧ 0 < sumSq v ∧ s = (dotQ query v, sumSq v)) := by
  unfold scoredEntries
  simp only [List.mem_filterMap, List.mem_filter]
  constructor
  · rintro ⟨qa', ⟨hmem, hemb⟩, hmatch⟩
    rcases hv : qa'.embedding with _ | v
    · rw [hv] at hmatch
      cases hmatch
    · rw [hv] at hmatch
      dsimp only at hmatch
      by_cases hpos : 0 < sumSq query ∧ 0 < sumSq v
      · rw [if_pos hpos, Option.some_inj, Prod.mk.injEq] at hmatch
        obtain ⟨rfl, rfl⟩ := hmatch
        obtain ⟨v', hv', hne'⟩ := (recordHasEmbedding_iff qa').mp hemb
        rw [hv] at hv'
        cases hv'
        exact ⟨hmem, v, hv, hne', hpos.1, hpos.2, rfl⟩
      · rw [if_neg hpos] at hmatch
        cases hmatch
  · rintro ⟨hmem, v, hv, hne, hq, hc, rfl⟩
    refine ⟨qa, ⟨hmem, (recordHasEmbedding_iff qa).mpr ⟨v, hv, hne⟩⟩, ?_⟩
    rw [hv]
    dsimp only
    rw [if_pos ⟨hq, hc⟩]

theorem scoredEntries_pos {records : List StoredQA} {query : List ℚ}
    {e : StoredQA × ℚ × ℚ} (he : e ∈ scoredEntries records query) :
    0 < sumSq query ∧ 0 < e.2.2 := by
  obtain ⟨qa, s⟩ := e
  obtain ⟨-, v, -, -, hq, hc, rfl⟩ := (mem_scoredEntries _ _ _ _).mp he
  exact ⟨hq, hc⟩

/-- Both branches of `search_similar` compute the same list: when no record
has a truthy embedding the scored list is empty anyway. -/
theorem search_similar_eq (kb : KnowledgeBase) (query : List ℚ) (k : Nat) :
    kb.search_similar query k =
      ((scoredEntries kb.get_all query).mergeSort scoreDescLe).take k := by
  unfold KnowledgeBase.search_similar
  by_cases h : (kb.get_all.filter recordHasEmbedding).isEmpty
  · have : scoredEntries kb.get_all query = [] := by
      unfold scoredEntries
      rw [List.isEmpty_iff] at h
      rw [h, List.filterMap_nil]
    simp [h, this]
  · simp [h]

theorem scoredEntries_perm {records records' : List StoredQA} (query : List ℚ)
    (hperm : records.Perm records') :
    (scoredEntries records query).Perm (scoredEntries records' query) :=
  (hperm.filter _).filterMap _

theorem scoreDescLe_trans (a b c : StoredQA × ℚ × ℚ)
    (h₁ : scoreDescLe a b) (h₂ : scoreDescLe b c) : scoreDescLe a c :=
  scoreLe_trans h₂ h₁

theorem scoreDescLe_total (a b : StoredQA × ℚ × ℚ) :
    scoreDescLe a b || scoreDescLe b a := by
  have := scoreLe_total b.2 a.2
  unfold scoreDescLe
  rcases Bool.or_eq_true_iff.mp this with h | h
  · simp [h]
  · simp [h]

theorem ranking_perm (records : List StoredQA) (query : List ℚ) :
    (ranking records query).Perm (scoredEntries records query) :=
  List.mergeSort_perm _ _

theorem ranking_sorted (records : List StoredQA) (query : List ℚ) :
    (ranking records query).Pairwise
      (fun a b => simVal (sumSq query) b.2 ≤ simVal (sumSq query) a.2) := by
  have hp : (ranking records query).Pairwise (fun a b => scoreDescLe a b = true) :=
    List.sorted_mergeSort scoreDescLe_trans scoreDescLe_total _
  refine hp.imp_of_mem ?_
  intro a b ha hb h
  have ha' : a ∈ scoredEntries records query := (List.mem_mergeSort).mp ha
  have hb' : b ∈ scoredEntries records query := (List.mem_mergeSort).mp hb
  obtain ⟨hq, hca⟩ := scoredEntries_pos ha'
  obtain ⟨-, hcb⟩ := scoredEntries_pos hb'
  exact (scoreLe_iff_simVal_le (sumSq query) b.2 a.2 hq hcb hca).mp h

theorem ranking_tie_stable (records : List StoredQA) (query : List ℚ)
    (a b : StoredQA × ℚ × ℚ) (hsub : [a, b].Sublist (scoredEntries records query))
    (htie : simVal (sumSq query) a.2 = simVal (sumSq query) b.2) :
    [a, b].Sublist (ranking records query) := by
  have ha' : a ∈ scoredEntries records query := hsub.mem (by simp)
  have hb' : b ∈ scoredEntries records query := hsub.mem (by simp)
  obtain ⟨hq, hca⟩ := scoredEntries_pos ha'
  obtain ⟨-, hcb⟩ := scoredEntries_pos hb'
  have hab : scoreDescLe a b = true :=
    (scoreLe_iff_simVal_le (sumSq query) b.2 a.2 hq hcb hca).mpr (le_of_eq htie.symm)
  exact List.sublist_mergeSort scoreDescLe_trans scoreDescLe_total
    (List.pairwise_pair.mpr hab) hsub

/-- Two permuted lists that are both pairwise-sorted by a strict (mutually
exclusive) relation are equal. -/
theorem eq_of_perm_of_pairwise_strict {α : Type} {r : α → α → Prop}
    (hasym : ∀ a b, r a b → r b a → False) {l₁ l₂ : List α}
    (hperm : l₁.Perm l₂) (h₁ : l₁.Pairwise r) (h₂ : l₂.Pairwise r) : l₁ = l₂ := by
  haveI : IsAntisymm α r := ⟨fun a b hab hba => (hasym a b hab hba).elim⟩
  exact List.eq_of_perm_of_sorted hperm h₁ h₂

/-- With pairwise distinct scores (no two scored entries tie), the ranked
list is uniquely determined by the scored set. -/
theorem ranking_eq_of_perm {records records' : List StoredQA} (query : List ℚ)
    (hperm : records.Perm records')
    (hdist : (scoredEntries records query).Pairwise
      (fun a b => ¬(scoreLe a.2 b.2 ∧ scoreLe b.2 a.2))) :
    ranking records query = ranking records' query := by
  have hse : (scoredEntries records query).Perm (scoredEntries records' query) :=
    scoredEntries_perm query hperm
  have hsym : ∀ {x y : StoredQA × ℚ × ℚ},
      ¬(scoreLe x.2 y.2 = true ∧ scoreLe y.2 x.2 = true) →
      ¬(scoreLe y.2 x.2 = true ∧ scoreLe x.2 y.2 = true) :=
    fun h hc => h ⟨hc.2, hc.1⟩
  have hdist' : (scoredEntries records' query).Pairwise
      (fun a b => ¬(scoreLe a.2 b.2 ∧ scoreLe b.2 a.2)) :=
    (List.Perm.pairwise_iff hsym hse).mp hdist
  have hperm₁₂ : (ranking records query).Perm (ranking records' query) :=
    ((ranking_perm records query).trans hse).trans (ranking_perm records' query).symm
  -- both rankings are pairwise with respect to the strict descending relation
  have hstrict : ∀ (rs : List StoredQA)
      (_ : (scoredEntries rs query).Pairwise
        (fun a b => ¬(scoreLe a.2 b.2 ∧ scoreLe b.2 a.2))),
      (ranking rs query).Pairwise
        (fun a b => scoreDescLe a b = true ∧ ¬(scoreDescLe b a = true)) := by
    intro rs hd
    have hsorted : (ranking rs query).Pairwise (fun a b => scoreDescLe a b = true) :=
      List.sorted_mergeSort scoreDescLe_trans scoreDescLe_total _
    have hd' : (ranking rs query).Pairwise
        (fun a b => ¬(scoreLe a.2 b.2 ∧ scoreLe b.2 a.2)) :=
      (List.Perm.pairwise_iff hsym (ranking_perm rs query)).mpr hd
    refine (hsorted.and hd').imp ?_
    rintro a b ⟨hab, hnot⟩
    refine ⟨hab, fun hba => hnot ⟨?_, ?_⟩⟩
    · exact hba
    · exact hab
  exact eq_of_perm_of_pairwise_strict
    (fun a b h₁ h₂ => h₁.2 h₂.1) hperm₁₂
    (hstrict records hdist) (hstrict records' hdist')

/-! ## Bucket-vector lemmas -/

theorem length_bump (v : List ℚ) (p : Nat) : (bump v p).length = v.length :=
  List.length_set ..

theorem length_bumpList (ps : List Nat) (v : List ℚ) :
    (bumpList v ps).length = v.length := by
  induction ps generalizing v with
  | nil => rfl
  | cons p ps ih => rw [bumpList, List.foldl_cons, ← bumpList, ih, length_bump]

theorem getD_bump (v : List ℚ) (p j : Nat) (hp : p < v.length) :
    (bump v p).getD j 0 = v.getD j 0 + if p = j then 1 else 0 := by
  unfold bump
  by_cases h : p = j
  · subst h
    rw [if_pos rfl, List.getD_eq_getElem?_getD, List.getElem?_set_self (by omega),
      List.getD_eq_getElem?_getD, List.getElem?_eq_getElem hp]
    simp
  · rw [if_neg h, List.getD_eq_getElem?_getD, List.getElem?_set_ne h,
      ← List.getD_eq_getElem?_getD, add_zero]

theorem getD_bumpList (ps : List Nat) (v : List ℚ) (j : Nat)
    (hps : ∀ p ∈ ps, p < v.length) :
    (bumpList v ps).getD j 0 = v.getD j 0 + (ps.count j : ℚ) := by
  induction ps generalizing v with
  | nil => simp [bumpList]
  | cons p ps ih =>
    rw [bumpList, List.foldl_cons, ← bumpList,
      ih _ (fun q hq => by rw [length_bump]; exact hps q (by simp [hq])),
      getD_bump v p j (hps p (by simp))]
    rw [List.count_cons]
    push_cast
    by_cases h : p = j
    · simp [h, Nat.add_comm]
      ring
    · simp [h, fun hc : j = p => h hc.symm]
  
theorem sum_bump (v : List ℚ) (p : Nat) (hp : p < v.length) :
    (bump v p).sum = v.sum + 1 := by
  induction v generalizing p with
  | nil => simp at hp
  | cons x xs ih =>
    cases p with
    | zero =>
      simp [bump, List.getD_cons_zero]
      ring
    | succ p =>
      have hxs : p < xs.length := by simpa using hp
      have : bump (x :: xs) (p + 1) = x :: bump xs p := by
        simp [bump, List.getD_cons_succ]
      rw [this, List.sum_cons, List.sum_cons, ih p hxs]
      ring

theorem sum_bumpList (ps : List Nat) (v : List ℚ)
    (hps : ∀ p ∈ ps, p < v.length) :
    (bumpList v ps).sum = v.sum + (ps.length : ℚ) := by
  induction ps generalizing v with
  | nil => simp [bumpList]
  | cons p ps ih =>
    rw [bumpList, List.foldl_cons, ← bumpList,
      ih _ (fun q hq => by rw [length_bump]; exact hps q (by simp [hq])),
      sum_bump v p (hps p (by simp))]
    rw [List.length_cons]
    push_cast
    ring

theorem addTokenBuckets_eq (dim : Nat) (idxs : List Nat) (v : List ℚ) (w : String) :
    addTokenBuckets dim idxs v w =
      bumpList v (idxs.map (fun i => hexPairVal (md5Hex w) i % dim)) := by
  unfold addTokenBuckets bumpList
  rw [List.foldl_map]

theorem foldl_bumpList_length (posOf : String → List Nat) (ws : List String) (v : List ℚ) :
    (ws.foldl (fun v w => bumpList v (posOf w)) v).length = v.length := by
  induction ws generalizing v with
  | nil => rfl
  | cons w ws ih => rw [List.foldl_cons, ih, length_bumpList]

theorem foldl_bumpList_sum (posOf : String → List Nat) (ws : List String) (v : List ℚ)
    (h : ∀ w, ∀ p ∈ posOf w, p < v.length) :
    (ws.foldl (fun v w => bumpList v (posOf w)) v).sum
      = v.sum + (ws.map (fun w => ((posOf w).length : ℚ))).sum := by
  induction ws generalizing v with
  | nil => simp
  | cons w ws ih =>
    rw [List.foldl_cons,
      ih _ (fun w' p hp => by rw [length_bumpList]; exact h w' p hp),
      sum_bumpList _ _ (h w), List.map_cons, List.sum_cons]
    ring

theorem foldl_bumpList_getD (posOf : String → List Nat) (ws : List String) (v : List ℚ)
    (j : Nat) (h : ∀ w, ∀ p ∈ posOf w, p < v.length) :
    (ws.foldl (fun v w => bumpList v (posOf w)) v).getD j 0
      = v.getD j 0 + (ws.map (fun w => (((posOf w).count j : ℕ) : ℚ))).sum := by
  induction ws generalizing v with
  | nil => simp
  | cons w ws ih =>
    rw [List.foldl_cons,
      ih _ (fun w' p hp => by rw [length_bumpList]; exact h w' p hp),
      getD_bumpList _ _ _ (h w), List.map_cons, List.sum_cons]
    ring

theorem rawLocalVec_eq (text : String) (dim : Nat) :
    rawLocalVec text dim =
      (keptWords text).foldl (fun v w => bumpList v (localPositions dim w))
        (List.replicate dim 0) := by
  unfold rawLocalVec
  congr 1

theorem rawSimpleVec_eq (text : String) (dim : Nat) :
    rawSimpleVec text dim =
      (findallWords text).foldl (fun v w => bumpList v (fallbackPositions dim w))
        (List.replicate dim 0) := by
  unfold rawSimpleVec
  congr 1

theorem length_leBytes (n x : Nat) : (MD5.leBytes n x).length = n := by
  simp [MD5.leBytes]

theorem length_md5Bytes (s : String) : (md5Bytes s).length = 16 := by
  unfold md5Bytes MD5.digestBytes
  rcases (MD5.chunks64 (strBytes s ++ MD5.padding (strBytes s).length)).foldl
      MD5.processBlock (0x67452301, 0xefcdab89, 0x98badcfe, 0x10325476) with
    ⟨a, b, c, d⟩
  simp [length_leBytes]

theorem length_hexOfBytes (bs : List Nat) : (hexOfBytes bs).length = 2 * bs.length := by
  unfold hexOfBytes
  show (String.mk _).length = _
  rw [String.length]
  induction bs with
  | nil => rfl
  | cons b bs ih =>
    simp only [List.flatMap_cons, List.length_append, List.length_cons,
      List.length_nil] at ih ⊢
    omega

theorem length_md5Hex (s : String) : (md5Hex s).length = 32 := by
  rw [md5Hex, length_hexOfBytes, length_md5Bytes]

theorem rawFeaturesVec_eq (features : List String) (dim : Nat) :
    rawFeaturesVec features dim =
      features.foldl (fun v w => bumpList v (localPositions dim w))
        (List.replicate dim 0) := by
  unfold rawFeaturesVec
  congr 1
  funext v w
  rw [show min (md5Hex w).length 8 = 8 by rw [length_md5Hex]; decide, addTokenBuckets_eq]
  rfl

theorem localPositions_lt (dim : Nat) (hdim : 0 < dim) (w : String) :
    ∀ p ∈ localPositions dim w, p < dim := by
  intro p hp
  obtain ⟨i, -, rfl⟩ := List.mem_map.mp hp
  exact Nat.mod_lt _ hdim

theorem fallbackPositions_lt (dim : Nat) (hdim : 0 < dim) (w : String) :
    ∀ p ∈ fallbackPositions dim w, p < dim := by
  intro p hp
  obtain ⟨i, -, rfl⟩ := List.mem_map.mp hp
  exact Nat.mod_lt _ hdim

theorem length_localPositions (dim : Nat) (w : String) :
    (localPositions dim w).length = 4 := by
  simp [localPositions, pyRange2]

theorem length_fallbackPositions (dim : Nat) (w : String) :
    (fallbackPositions dim w).length = 2 := by
  simp [fallbackPositions, pyRange2]

theorem length_rawLocalVec (text : String) (dim : Nat) :
    (rawLocalVec text dim).length = dim := by
  rw [rawLocalVec_eq, foldl_bumpList_length, List.length_replicate]

theorem sum_rawLocalVec (text : String) :
    (rawLocalVec text 256).sum = 4 * ((keptWords text).length : ℚ) := by
  rw [rawLocalVec_eq, foldl_bumpList_sum _ _ _
      (fun w p hp => by
        rw [List.length_replicate]
        exact localPositions_lt 256 (by norm_num) w p hp)]
  simp only [length_localPositions, Nat.cast_ofNat, List.map_const', List.sum_replicate,
    smul_zero, nsmul_eq_mul, zero_add]
  ring

theorem sum_rawFeaturesVec (features : List String) :
    (rawFeaturesVec features 256).sum = 4 * ((features).length : ℚ) := by
  rw [rawFeaturesVec_eq, foldl_bumpList_sum _ _ _
      (fun w p hp => by
        rw [List.length_replicate]
        exact localPositions_lt 256 (by norm_num) w p hp)]
  simp only [length_localPositions, Nat.cast_ofNat, List.map_const', List.sum_replicate,
    smul_zero, nsmul_eq_mul, zero_add]
  ring

theorem exists_pos_of_sum_pos (v : List ℚ) (h : 0 < v.sum) : ∃ x ∈ v, 0 < x := by
  induction v with
  | nil => simp at h
  | cons x xs ih =>
    rcases lt_or_le 0 x with hx | hx
    · exact ⟨x, by simp, hx⟩
    · rw [List.sum_cons] at h
      obtain ⟨y, hy, hy0⟩ := ih (by linarith)
      exact ⟨y, by simp [hy], hy0⟩

theorem sumSq_nonneg (v : List ℚ) : 0 ≤ sumSq v := by
  unfold sumSq
  refine List.sum_nonneg ?_
  intro x hx
  obtain ⟨y, -, rfl⟩ := List.mem_map.mp hx
  exact mul_self_nonneg y

theorem sumSq_pos_of_mem {v : List ℚ} {x : ℚ} (hx : x ∈ v) (hx0 : x ≠ 0) :
    0 < sumSq v := by
  have hsq : x * x ∈ v.map (fun y => y * y) := List.mem_map.mpr ⟨x, hx, rfl⟩
  have hle : x * x ≤ (v.map (fun y => y * y)).sum :=
    List.single_le_sum (fun y hy => by
      obtain ⟨z, -, rfl⟩ := List.mem_map.mp hy
      exact mul_self_nonneg z) _ hsq
  have : 0 < x * x := mul_self_pos.mpr hx0
  unfold sumSq
  linarith

/-! ## Normalisation lemmas -/

theorem sumSqR_nonneg (v : List ℝ) : 0 ≤ sumSqR v := by
  unfold sumSqR
  refine List.sum_nonneg ?_
  intro x hx
  obtain ⟨y, -, rfl⟩ := List.mem_map.mp hx
  exact mul_self_nonneg y

theorem sumSqR_map_cast (v : List ℚ) :
    sumSqR (v.map (fun q : ℚ => (q : ℝ))) = ((sumSq v : ℚ) : ℝ) := by
  unfold sumSqR sumSq
  induction v with
  | nil => simp
  | cons x xs ih =>
    simp only [List.map_cons, List.sum_cons]
    rw [ih]
    push_cast
    ring

theorem sumSqR_map_div (v : List ℝ) (m : ℝ) (hm : m ≠ 0) :
    sumSqR (v.map (fun x => x / m)) = sumSqR v / m ^ 2 := by
  induction v with
  | nil => simp [sumSqR]
  | cons x xs ih =>
    simp only [sumSqR, List.map_cons, List.sum_cons] at ih ⊢
    rw [ih]
    field_simp
    ring

theorem sumSqR_normalizeVec (v : List ℝ) (hv : 0 < sumSqR v) :
    sumSqR (normalizeVec v) = 1 := by
  unfold normalizeVec
  have hm : 0 < Real.sqrt (sumSqR v) := Real.sqrt_pos.mpr hv
  rw [if_pos hm, sumSqR_map_div _ _ hm.ne', Real.sq_sqrt hv.le]
  exact div_self hv.ne'

theorem normalizeVec_of_zero (v : List ℝ) (hv : sumSqR v = 0) :
    normalizeVec v = v := by
  unfold normalizeVec
  rw [hv, Real.sqrt_zero, if_neg (lt_irrefl 0)]

/-! ## Pointwise characterisation of the bucket vectors -/

theorem getD_replicate_zero (dim j : Nat) :
    (List.replicate dim (0 : ℚ)).getD j 0 = 0 := by
  induction dim generalizing j with
  | zero => rfl
  | succ n ih =>
    cases j with
    | zero => rfl
    | succ j =>
      rw [List.replicate_succ]
      exact ih j

/-- The fold of bucket increments equals the per-bucket occurrence counts. -/
theorem foldl_bumpList_eq_counts (posOf : String → List Nat) (ws : List String)
    (dim : Nat) (hpos : ∀ w, ∀ p ∈ posOf w, p < dim) :
    ws.foldl (fun v w => bumpList v (posOf w)) (List.replicate dim 0) =
      (List.range dim).map
        (fun j => (ws.map (fun w => (((posOf w).count j : ℕ) : ℚ))).sum) := by
  apply List.ext_getElem
  · rw [foldl_bumpList_length, List.length_replicate, List.length_map,
      List.length_range]
  · intro j h1 h2
    have hlen : (List.replicate dim (0:ℚ)).length = dim := List.length_replicate ..
    rw [← List.getD_eq_getElem _ 0 h1, ← List.getD_eq_getElem _ 0 h2,
      foldl_bumpList_getD _ _ _ _ (fun w p hp => by rw [hlen]; exact hpos w p hp),
      getD_replicate_zero, zero_add,
      List.getD_eq_getElem _ 0 h2, List.getElem_map, List.getElem_range]

/-- Each byte of `md5Bytes` is below 256. -/
theorem md5Bytes_lt (s : String) : ∀ b ∈ md5Bytes s, b < 256 := by
  intro b hb
  unfold md5Bytes MD5.digestBytes at hb
  rcases (MD5.chunks64 (strBytes s ++ MD5.padding (strBytes s).length)).foldl
      MD5.processBlock (0x67452301, 0xefcdab89, 0x98badcfe, 0x10325476) with
    ⟨a', b', c', d'⟩
  simp only [List.mem_append, MD5.leBytes, List.mem_map, List.mem_range] at hb
  rcases hb with ((⟨i, -, rfl⟩ | ⟨i, -, rfl⟩) | ⟨i, -, rfl⟩) | ⟨i, -, rfl⟩ <;>
    exact Nat.mod_lt _ (by norm_num)

theorem hvHexChar : ∀ x, x < 16 →
    (if (hexChar x).toNat ≥ 97 then (hexChar x).toNat - 87
     else (hexChar x).toNat - 48) = x := by
  decide

/-- Reading the hex pair at offsets `2k, 2k+1` of a hex digest recovers
digest byte `k`. -/
theorem hexPairVal_hexOfBytes (bs : List Nat) (k : Nat) (hk : k < bs.length)
    (hb : ∀ b ∈ bs, b < 256) :
    hexPairVal (hexOfBytes bs) (2 * k) = bs.getD k 0 := by
  induction bs generalizing k with
  | nil => simp at hk
  | cons b bs ih =>
    have hb0 : b < 256 := hb b (by simp)
    cases k with
    | zero =>
      show hexPairVal (hexOfBytes (b :: bs)) 0 = b
      unfold hexPairVal hexOfBytes
      simp only [List.flatMap_cons, List.drop_zero]
      show 16 * (if (hexChar (b / 16)).toNat ≥ 97 then (hexChar (b / 16)).toNat - 87
          else (hexChar (b / 16)).toNat - 48) +
        (if (hexChar (b % 16)).toNat ≥ 97 then (hexChar (b % 16)).toNat - 87
          else (hexChar (b % 16)).toNat - 48) = b
      rw [hvHexChar _ (Nat.div_lt_of_lt_mul (by omega)),
        hvHexChar _ (Nat.mod_lt _ (by norm_num))]
      omega
    | succ k =>
      have : hexPairVal (hexOfBytes (b :: bs)) (2 * (k + 1)) =
          hexPairVal (hexOfBytes bs) (2 * k) := by
        unfold hexPairVal hexOfBytes
        simp only [List.flatMap_cons]
        have h2 : 2 * (k + 1) = (2 * k) + 1 + 1 := by omega
        rw [h2]
        rfl
      rw [this, ih k (by rw [List.length_cons] at hk; omega) (fun x hx => hb x (by simp [hx]))]
      rfl

theorem map_hexPair_take4 (dim : Nat) (bs : List Nat) (hb : ∀ b ∈ bs, b < 256)
    (hlen : 4 ≤ bs.length) :
    (pyRange2 8).map (fun i => hexPairVal (hexOfBytes bs) i % dim) =
      (bs.take 4).map (· % dim) := by
  have h0 := hexPairVal_hexOfBytes bs 0 (by omega) hb
  have h1 := hexPairVal_hexOfBytes bs 1 (by omega) hb
  have h2 := hexPairVal_hexOfBytes bs 2 (by omega) hb
  have h3 := hexPairVal_hexOfBytes bs 3 (by omega) hb
  norm_num at h0 h1 h2 h3
  rcases bs with _ | ⟨b0, _ | ⟨b1, _ | ⟨b2, _ | ⟨b3, rest⟩⟩⟩⟩ <;>
      simp only [List.length_nil, List.length_cons] at hlen <;> try omega
  show [hexPairVal (hexOfBytes (b0 :: b1 :: b2 :: b3 :: rest)) 0 % dim,
        hexPairVal (hexOfBytes (b0 :: b1 :: b2 :: b3 :: rest)) 2 % dim,
        hexPairVal (hexOfBytes (b0 :: b1 :: b2 :: b3 :: rest)) 4 % dim,
        hexPairVal (hexOfBytes (b0 :: b1 :: b2 :: b3 :: rest)) 6 % dim] = _
  rw [h0, h1, h2, h3]
  simp

theorem map_hexPair_take2 (dim : Nat) (bs : List Nat) (hb : ∀ b ∈ bs, b < 256)
    (hlen : 2 ≤ bs.length) :
    (pyRange2 4).map (fun i => hexPairVal (hexOfBytes bs) i % dim) =
      (bs.take 2).map (· % dim) := by
  have h0 := hexPairVal_hexOfBytes bs 0 (by omega) hb
  have h1 := hexPairVal_hexOfBytes bs 1 (by omega) hb
  norm_num at h0 h1
  rcases bs with _ | ⟨b0, _ | ⟨b1, rest⟩⟩ <;>
      simp only [List.length_nil, List.length_cons] at hlen <;> try omega
  show [hexPairVal (hexOfBytes (b0 :: b1 :: rest)) 0 % dim,
        hexPairVal (hexOfBytes (b0 :: b1 :: rest)) 2 % dim] = _
  rw [h0, h1]
  simp

/-- The local-scheme positions of a token are its first 4 digest bytes
reduced modulo the dimension. -/
theorem localPositions_bytes (dim : Nat) (w : String) :
    localPositions dim w = ((md5Bytes w).take 4).map (· % dim) := by
  unfold localPositions md5Hex
  exact map_hexPair_take4 dim (md5Bytes w) (md5Bytes_lt w)
    (by rw [length_md5Bytes]; omega)

/-- The fallback-scheme positions of a token are its first 2 digest bytes
reduced modulo the dimension. -/
theorem fallbackPositions_bytes (dim : Nat) (w : String) :
    fallbackPositions dim w = ((md5Bytes w).take 2).map (· % dim) := by
  unfold fallbackPositions md5Hex
  exact map_hexPair_take2 dim (md5Bytes w) (md5Bytes_lt w)
    (by rw [length_md5Bytes]; omega)

/-! ## Brace-extraction lemmas (the permissive parse) -/

theorem stringMk_toList (s : String) : String.mk s.toList = s := by
  cases s
  rfl

theorem dropWhile_append_all {p : Char → Bool} {l₁ l₂ : List Char}
    (h : ∀ c ∈ l₁, p c) : (l₁ ++ l₂).dropWhile p = l₂.dropWhile p := by
  rw [List.dropWhile_append]
  have : l₁.dropWhile p = [] := List.dropWhile_eq_nil_iff.mpr h
  simp [this]

theorem braceExtract_wrapped (pre s post : List Char) (hne : s ≠ [])
    (hpre : '{' ∉ pre) (hpost : '}' ∉ post)
    (hh : s.head? = some '{') (hl : s.getLast? = some '}') :
    braceExtract (pre ++ s ++ post) = some s := by
  obtain ⟨t, rfl⟩ : ∃ t, s = '{' :: t := by
    rcases s with _ | ⟨c, t⟩
    · cases hh
    · rw [List.head?_cons, Option.some_inj] at hh
      exact ⟨t, by rw [hh]⟩
  have h1 : ∀ c ∈ pre, (fun c => !decide (c = '{')) c = true := fun c hc => by
    have hcn : ¬ c = '{' := fun h => hpre (h ▸ hc)
    simp [hcn]
  have h2 : ∀ c ∈ post.reverse, (fun c => !decide (c = '}')) c = true := fun c hc => by
    have hcn : ¬ c = '}' := fun h => hpost (h ▸ (List.mem_reverse.mp hc))
    simp [hcn]
  obtain ⟨u, hu⟩ : ∃ u, ('{' :: t).reverse = '}' :: u := by
    have hrh : (('{' :: t).reverse).head? = some '}' := by
      rw [List.head?_reverse]
      exact hl
    rcases hrev : ('{' :: t).reverse with _ | ⟨c, u⟩
    · rw [hrev] at hrh
      cases hrh
    · rw [hrev, List.head?_cons, Option.some_inj] at hrh
      exact ⟨u, by rw [hrh]⟩
  simp only [braceExtract]
  rw [List.append_assoc, dropWhile_append_all h1]
  have h3 : List.dropWhile (fun c => !decide (c = '{')) (('{' :: t) ++ post) =
      ('{' :: t) ++ post := by
    rw [List.cons_append, List.dropWhile_cons]
    simp
  rw [h3, List.reverse_append, dropWhile_append_all h2, hu]
  have h4 : List.dropWhile (fun c => !decide (c = '}')) ('}' :: u) = '}' :: u := by
    rw [List.dropWhile_cons]
    simp
  rw [h4, ← hu, List.reverse_reverse]
  simp

theorem headIsLBrace_of_toList {s : String} {c : Char} {cs : List Char}
    (h : s.toList = c :: cs) : headIsLBrace s = decide (c = '{') := by
  unfold headIsLBrace
  rw [h]

theorem parsePayload_direct (s : String) (h : headIsLBrace s = true) :
    parsePayload s = loads s := by
  unfold parsePayload
  rw [if_pos h]

theorem parsePayload_wrapped (pre s post : String)
    (hnn : pre.toList ≠ []) (hpre : '{' ∉ pre.toList) (hpost : '}' ∉ post.toList)
    (hne : s.toList ≠ []) (hh : s.toList.head? = some '{')
    (hl : s.toList.getLast? = some '}') :
    parsePayload (pre ++ s ++ post) = loads s := by
  have htl : (pre ++ s ++ post).toList = pre.toList ++ s.toList ++ post.toList := by
    show (pre ++ s ++ post).data = pre.data ++ s.data ++ post.data
    rw [String.data_append, String.data_append]
  have hnb : headIsLBrace (pre ++ s ++ post) = false := by
    rcases hc : pre.toList with _ | ⟨c, cs⟩
    · exact absurd hc hnn
    · have : (pre ++ s ++ post).toList = c :: (cs ++ s.toList ++ post.toList) := by
        rw [htl, hc]
        simp
      rw [headIsLBrace_of_toList this]
      have : ¬ c = '{' := fun h => hpre (by rw [hc]; exact h ▸ List.mem_cons_self c cs)
      simp [this]
  unfold parsePayload
  rw [hnb]
  simp only [Bool.false_eq_true, if_false]
  unfold reSearchBraces
  rw [htl, braceExtract_wrapped pre.toList s.toList post.toList hne hpre hpost hh hl]
  simp only [Option.map_some']
  rw [stringMk_toList]

/-! ## Generator lemmas -/

theorem attemptGenerate_parsed (question : String) (pairs : List CtxPair)
    (text : String) (fields : List (String × Json)) (c : Int)
    (hp : parsePayload (pyStrip text) = .ok (.obj fields))
    (hc : pyInt ((objGet fields "confidence").getD (.num 50)) = .ok c) :
    AnswerGenerator.attemptGenerate question pairs (.ok text) =
      .ok { question := question,
            suggested_answer := (objGet fields "answer").getD (.str ""),
            confidence := c,
            needs_review := (objGet fields "needs_review").getD (.bool (decide (c < 70))),
            source_questions := pairs,
            reasoning := (objGet fields "reasoning").getD (.str "") } := by
  unfold AnswerGenerator.attemptGenerate
  simp [hp, hc, Bind.bind, Except.bind]

theorem generate_with_claude_of_attempt_ok (question : String) (pairs : List CtxPair)
    (service : Except PyExc String) (r : GeneratedAnswer)
    (h : AnswerGenerator.attemptGenerate question pairs service = .ok r) :
    AnswerGenerator.generate_with_claude question pairs service = .ok r := by
  unfold AnswerGenerator.generate_with_claude
  rw [h]

theorem generate_with_claude_fallback (question : String) (best : CtxPair)
    (rest : List CtxPair) (service : Except PyExc String) (e : PyExc)
    (h : AnswerGenerator.attemptGenerate question (best :: rest) service = .error e)
    (hc : e.caughtByGenerate = true) :
    AnswerGenerator.generate_with_claude question (best :: rest) service =
      .ok { question := question,
            suggested_answer := .str best.answer,
            confidence := ratTrunc best.similarity,
            needs_review := .bool true,
            source_questions := best :: rest,
            reasoning := .str ("Direct match from: " ++ best.source) } := by
  unfold AnswerGenerator.generate_with_claude
  rw [h]
  dsimp only
  rw [hc]
  rfl

theorem search_similar_of_no_embeddings (kb : KnowledgeBase) (query : List ℚ)
    (k : Nat) (h : ∀ qa ∈ kb.records, recordHasEmbedding qa = false) :
    kb.search_similar query k = [] := by
  rw [search_similar_eq]
  have hf : kb.get_all.filter recordHasEmbedding = [] := by
    rw [List.filter_eq_nil_iff]
    intro a ha
    simp [h a ha]
  have : scoredEntries kb.get_all query = [] := by
    unfold scoredEntries
    rw [hf, List.filterMap_nil]
  rw [this, List.mergeSort_nil, List.take_nil]

/-! ## Claim theorems -/

/-- C4: if the retrieved candidate list is empty — no fingerprinted records
in the store — `generate_answer` returns the defined zero-confidence result
(confidence 0, needs-review true, empty source list, reasoning stating that
no similar questions were found); this is a normal return, nothing is
thrown. -/
theorem C4_empty_retrieval_zero_confidence
    (emb : String → List ℚ) (pct : ℚ → ℚ × ℚ → ℚ) (kb : KnowledgeBase)
    (question : String) (service : Except PyExc String)
    (h : ∀ qa ∈ kb.records, recordHasEmbedding qa = false) :
    AnswerGenerator.generate_answer emb pct kb question service =
      .ok { question := question, suggested_answer := .str "", confidence := 0,
            needs_review := .bool true, source_questions := [],
            reasoning := .str "No similar questions found in knowledge base." } := by
  simp only [AnswerGenerator.generate_answer]
  rw [search_similar_of_no_embeddings kb (emb question) 5 h]
  rfl

/-- Witness for C4: a knowledge base with zero stored records. -/
theorem C4_empty_retrieval_zero_confidence_witness :
    AnswerGenerator.generate_answer (fun _ => [1]) (fun _ _ => 0)
      ⟨[], 1⟩ "Any question" (.ok "{}") =
      .ok { question := "Any question", suggested_answer := .str "", confidence := 0,
            needs_review := .bool true, source_questions := [],
            reasoning := .str "No similar questions found in knowledge base." } :=
  C4_empty_retrieval_zero_confidence _ _ _ _ _ (fun qa hqa => absurd hqa (by simp))

theorem add_qa_pair_empty_embedding (kb : KnowledgeBase) (q a sf cat : String) :
    kb.add_qa_pair q a sf cat (some []) = kb.add_qa_pair q a sf cat none := rfl

/-- C9: a QARecord inserted with any question, answer, source file,
category, and optional (non-empty) fingerprint vector is reproduced
exactly — fingerprint included — by a subsequent `get_all`.  (An *empty*
vector is not a fingerprint: Python's truthiness stores it as NULL, the
behaviour covered by C10.) -/
theorem C9_insert_get_all_roundtrip (kb : KnowledgeBase)
    (question answer source_file category : String)
    (embedding : Option (List ℚ)) (h : embedding ≠ some []) :
    ∃ rec ∈ (kb.add_qa_pair question answer source_file category embedding).1.get_all,
      rec.id = (kb.add_qa_pair question answer source_file category embedding).2 ∧
      rec.question = question ∧ rec.answer = answer ∧
      rec.source_file = source_file ∧ rec.category = category ∧
      rec.embedding = embedding := by
  have hemb : storedEmbedding embedding = embedding := by
    rcases embedding with _ | v
    · rfl
    · rcases v with _ | ⟨x, xs⟩
      · exact absurd rfl h
      · simp [storedEmbedding]
  refine ⟨{ id := kb.next_id, question := question, answer := answer,
            source_file := source_file, category := category,
            embedding := storedEmbedding embedding },
    ?_, rfl, rfl, rfl, rfl, rfl, hemb⟩
  unfold KnowledgeBase.add_qa_pair KnowledgeBase.get_all
  simp

/-- Witness for C9 at a concrete record with a two-component fingerprint. -/
theorem C9_insert_get_all_roundtrip_witness :
    ∃ rec ∈ ((⟨[], 1⟩ : KnowledgeBase).add_qa_pair "Do you encrypt data at rest?"
        "Yes, AES-256" "audit.xlsx" "security" (some [1, 1/2])).1.get_all,
      rec.id = ((⟨[], 1⟩ : KnowledgeBase).add_qa_pair "Do you encrypt data at rest?"
        "Yes, AES-256" "audit.xlsx" "security" (some [1, 1/2])).2 ∧
      rec.question = "Do you encrypt data at rest?" ∧ rec.answer = "Yes, AES-256" ∧
      rec.source_file = "audit.xlsx" ∧ rec.category = "security" ∧
      rec.embedding = some [1, 1/2] :=
  C9_insert_get_all_roundtrip _ _ _ _ _ _ (by simp)

/-- C10: an insert whose embedding argument is the empty list is persisted
with a NULL fingerprint, for both `add_qa_pair` and `add_qa_pairs_batch` —
the store state is identical to supplying no fingerprint at all; `get_all`
returns the record with no embedding, and `search_similar` never returns a
record without a (non-empty) stored fingerprint. -/
theorem C10_empty_embedding_is_null :
    (∀ (kb : KnowledgeBase) (q a sf cat : String),
      kb.add_qa_pair q a sf cat (some []) = kb.add_qa_pair q a sf cat none) ∧
    (∀ (kb : KnowledgeBase) (inp : KnowledgeBase.QAInput)
        (ps : List KnowledgeBase.QAInput),
      inp.embedding = some [] →
      kb.add_qa_pairs_batch (inp :: ps) =
        kb.add_qa_pairs_batch ({ inp with embedding := none } :: ps)) ∧
    (∀ (kb : KnowledgeBase) (q a sf cat : String),
      (kb.add_qa_pair q a sf cat (some [])).1.get_all =
        kb.get_all ++ [{ id := kb.next_id, question := q, answer := a,
                         source_file := sf, category := cat, embedding := none }]) ∧
    (∀ (kb : KnowledgeBase) (query : List ℚ) (k : Nat) (qa : StoredQA) (s : ℚ × ℚ),
      (qa, s) ∈ kb.search_similar query k → ∃ v, qa.embedding = some v ∧ v ≠ []) := by
  refine ⟨fun kb q a sf cat => rfl, ?_, fun kb q a sf cat => rfl, ?_⟩
  · intro kb inp ps hemb
    unfold KnowledgeBase.add_qa_pairs_batch
    rw [List.foldl_cons, List.foldl_cons]
    rcases inp with ⟨q, a, sf, cat, e⟩
    cases hemb
    rfl
  · intro kb query k qa s hmem
    rw [search_similar_eq] at hmem
    have hmem' : (qa, s) ∈ (scoredEntries kb.get_all query).mergeSort scoreDescLe :=
      List.mem_of_mem_take hmem
    obtain ⟨-, v, hv, hne, -⟩ :=
      (mem_scoredEntries _ _ _ _).mp (List.mem_mergeSort.mp hmem')
    exact ⟨v, hv, hne⟩

/-- Witness for C10: inserting a record with an explicitly empty embedding
equals inserting it with none. -/
theorem C10_empty_embedding_is_null_witness :
    (⟨[], 1⟩ : KnowledgeBase).add_qa_pairs_batch
        [{ question := "Q1", answer := "A1", source_file := "f.xlsx",
           category := "", embedding := some [] }] =
      (⟨[], 1⟩ : KnowledgeBase).add_qa_pairs_batch
        [{ question := "Q1", answer := "A1", source_file := "f.xlsx",
           category := "", embedding := none }] :=
  C10_empty_embedding_is_null.2.1 _ _ _ rfl

/-- C3: the cosine-similarity computation never divides by zero — every
returned entry has positive query and candidate magnitudes (so the real
denominator `‖query‖ · ‖candidate‖` is nonzero), a candidate whose stored
vector has zero magnitude is skipped (never appears with any score), and a
zero-magnitude query yields an empty result. -/
theorem C3_zero_magnitude_skipped :
    (∀ (kb : KnowledgeBase) (query : List ℚ) (k : Nat) (e : StoredQA × ℚ × ℚ),
      e ∈ kb.search_similar query k →
      0 < sumSq query ∧ 0 < e.2.2 ∧
        Real.sqrt ((sumSq query : ℚ) : ℝ) * Real.sqrt ((e.2.2 : ℚ) : ℝ) ≠ 0) ∧
    (∀ (kb : KnowledgeBase) (query : List ℚ) (k : Nat) (qa : StoredQA) (v : List ℚ),
      qa.embedding = some v → sumSq v = 0 →
      ∀ s : ℚ × ℚ, (qa, s) ∉ kb.search_similar query k) ∧
    (∀ (kb : KnowledgeBase) (query : List ℚ) (k : Nat),
      sumSq query = 0 → kb.search_similar query k = []) := by
  have hmem : ∀ (kb : KnowledgeBase) (query : List ℚ) (k : Nat) (e : StoredQA × ℚ × ℚ),
      e ∈ kb.search_similar query k → e ∈ scoredEntries kb.get_all query := by
    intro kb query k e he
    rw [search_similar_eq] at he
    exact List.mem_mergeSort.mp (List.mem_of_mem_take he)
  refine ⟨?_, ?_, ?_⟩
  · intro kb query k e he
    obtain ⟨hq, hc⟩ := scoredEntries_pos (hmem kb query k e he)
    have hqR : (0:ℝ) < ((sumSq query : ℚ) : ℝ) := by exact_mod_cast hq
    have hcR : (0:ℝ) < ((e.2.2 : ℚ) : ℝ) := by exact_mod_cast hc
    exact ⟨hq, hc,
      (mul_pos (Real.sqrt_pos.mpr hqR) (Real.sqrt_pos.mpr hcR)).ne'⟩
  · intro kb query k qa v hv hzero s hin
    obtain ⟨-, v', hv', -, -, hpos, hs⟩ :=
      (mem_scoredEntries _ _ _ _).mp (hmem kb query k (qa, s) hin)
    rw [hv] at hv'
    cases hv'
    exact absurd hpos (by rw [hzero]; exact lt_irrefl 0)
  · intro kb query k hq
    rw [search_similar_eq]
    have : scoredEntries kb.get_all query = [] := by
      unfold scoredEntries
      rw [List.filterMap_eq_nil_iff]
      intro qa hqa
      rcases qa.embedding with _ | v
      · rfl
      · dsimp only
        rw [if_neg (fun hc => absurd hc.1 (by rw [hq]; exact lt_irrefl 0))]
    rw [this, List.mergeSort_nil, List.take_nil]

/-- Witness for C3: a fingerprinted candidate whose vector is all-zero is
skipped, and a zero query returns the empty list. -/
theorem C3_zero_magnitude_skipped_witness :
    (⟨1, "q", "a", "f.xlsx", "", some [0, 0]⟩, ((0 : ℚ), (0 : ℚ))) ∉
        KnowledgeBase.search_similar ⟨[⟨1, "q", "a", "f.xlsx", "", some [0, 0]⟩], 2⟩
          [1, 0] 5 ∧
    KnowledgeBase.search_similar ⟨[⟨1, "q", "a", "f.xlsx", "", some [1, 0]⟩], 2⟩
      [0, 0] 5 = [] :=
  ⟨C3_zero_magnitude_skipped.2.1 _ _ _ _ [0, 0] rfl (by with_unfolding_all rfl) (0, 0),
   C3_zero_magnitude_skipped.2.2 _ _ _ (by with_unfolding_all rfl)⟩

/-- C1 (amended): when at least one fingerprinted candidate is retrieved and
the `try:` body of `_generate_with_claude` fails with one of the exception
kinds named in its `except` clause — a JSON decode error, a `ValueError`
(e.g. no brace-delimited JSON in the response, or a non-numeric confidence
string), or a `KeyError` — `generate_answer` returns, without throwing, the
deterministic fallback built from the *top* retrieved candidate: its stored
answer verbatim as the suggested answer, confidence `int(...)` of its
similarity percentage, needs-review forced `True`, and a reasoning line
naming its source file.  (The claim's "any exception" is too strong:
exceptions outside the caught tuple, such as API connection errors or the
`TypeError` that `int()` raises on `null`, propagate — see
`C1_service_exception_propagates`.) -/
theorem C1_caught_failure_falls_back (emb : String → List ℚ)
    (pct : ℚ → ℚ × ℚ → ℚ) (kb : KnowledgeBase) (question : String)
    (service : Except PyExc String) (top : StoredQA × ℚ × ℚ)
    (rest : List (StoredQA × ℚ × ℚ)) (e : PyExc)
    (hsearch : kb.search_similar (emb question) 5 = top :: rest)
    (hfail : AnswerGenerator.attemptGenerate question
      (contextPairsOf pct (sumSq (emb question)) (top :: rest)) service = .error e)
    (hcaught : e.caughtByGenerate = true) :
    AnswerGenerator.generate_answer emb pct kb question service =
      .ok { question := question,
            suggested_answer := .str top.1.answer,
            confidence := ratTrunc (pct (sumSq (emb question)) top.2),
            needs_review := .bool true,
            source_questions := contextPairsOf pct (sumSq (emb question)) (top :: rest),
            reasoning := .str ("Direct match from: " ++ top.1.source_file) } := by
  have key : AnswerGenerator.generate_answer emb pct kb question service =
      AnswerGenerator.generate_with_claude question
        (contextPairsOf pct (sumSq (emb question)) (top :: rest)) service := by
    simp only [AnswerGenerator.generate_answer]
    rw [hsearch]
    rfl
  have hcons : contextPairsOf pct (sumSq (emb question)) (top :: rest) =
      { question := top.1.question, answer := top.1.answer,
        source := top.1.source_file,
        similarity := pct (sumSq (emb question)) top.2 : CtxPair } ::
        contextPairsOf pct (sumSq (emb question)) rest := rfl
  rw [hcons] at hfail
  rw [key, hcons]
  exact generate_with_claude_fallback question _ _ service e hfail hcaught

/-- Witness for C1: one stored record with a valid fingerprint, a service
response with no JSON in it — the fallback returns the stored answer
verbatim, needs-review true, reasoning naming "audit.xlsx". -/
theorem C1_caught_failure_falls_back_witness :
    AnswerGenerator.generate_answer (fun _ => [1]) (fun _ _ => 92.5)
      ⟨[⟨1, "Do you encrypt data at rest?", "Yes, AES-256", "audit.xlsx", "",
          some [1]⟩], 2⟩
      "Do you encrypt customer data at rest?"
      (.ok "Sorry, I cannot help with that.") =
      .ok { question := "Do you encrypt customer data at rest?",
            suggested_answer := .str "Yes, AES-256",
            confidence := ratTrunc (92.5 : ℚ),
            needs_review := .bool true,
            source_questions := contextPairsOf (fun _ _ => 92.5) (sumSq [1])
              [(⟨1, "Do you encrypt data at rest?", "Yes, AES-256", "audit.xlsx", "",
                  some [1]⟩, (1, 1))],
            reasoning := .str ("Direct match from: " ++ "audit.xlsx") } :=
  C1_caught_failure_falls_back (fun _ => [1]) (fun _ _ => 92.5)
    ⟨[⟨1, "Do you encrypt data at rest?", "Yes, AES-256", "audit.xlsx", "",
        some [1]⟩], 2⟩
    "Do you encrypt customer data at rest?"
    (.ok "Sorry, I cannot help with that.")
    (⟨1, "Do you encrypt data at rest?", "Yes, AES-256", "audit.xlsx", "",
        some [1]⟩, (1, 1))
    [] (.valueError "No JSON found in response")
    (by with_unfolding_all rfl) (by with_unfolding_all rfl) rfl

/-- Counterexample to C1 as stated: with a fingerprinted candidate present,
a service-call exception outside the `except (json.JSONDecodeError,
ValueError, KeyError)` tuple — here an API connection error — propagates
out of `_generate_with_claude` instead of producing the fallback, so
`synthesize` does throw. -/
theorem C1_service_exception_propagates :
    AnswerGenerator.generate_with_claude "Do you encrypt data at rest?"
      [⟨"Do you encrypt data at rest?", "Yes, AES-256", "audit.xlsx", 92⟩]
      (.error (.apiError "Connection error")) =
      .error (.apiError "Connection error") := by
  rfl

/-- C2 (amended): `search_similar` scores exactly the candidates that have
a truthy (present, non-empty) fingerprint *and* whose vector, like the
query, has positive magnitude (the zero-magnitude skip of C3); it sorts
the scored candidates by real cosine similarity descending, keeps ties in
original storage order (stable sort), truncates to `top_k` (default 5),
and returns an empty list — not an error — when no candidate has a
fingerprint.  (The claim's "scores exactly the candidates that possess a
fingerprint" fails for the zero-magnitude candidates; see
`C2_fingerprinted_zero_vector_not_scored`.) -/
theorem C2_search_scores_sorts_truncates (kb : KnowledgeBase)
    (query : List ℚ) (k : Nat) :
    kb.search_similar query k = (ranking kb.get_all query).take k ∧
    (ranking kb.get_all query).Perm (scoredEntries kb.get_all query) ∧
    (∀ (qa : StoredQA) (s : ℚ × ℚ), (qa, s) ∈ scoredEntries kb.get_all query ↔
      (qa ∈ kb.get_all ∧ ∃ v, qa.embedding = some v ∧ v ≠ [] ∧
        0 < sumSq query ∧ 0 < sumSq v ∧ s = (dotQ query v, sumSq v))) ∧
    (ranking kb.get_all query).Pairwise
      (fun a b => simVal (sumSq query) b.2 ≤ simVal (sumSq query) a.2) ∧
    (∀ a b : StoredQA × ℚ × ℚ, [a, b].Sublist (scoredEntries kb.get_all query) →
      simVal (sumSq query) a.2 = simVal (sumSq query) b.2 →
      [a, b].Sublist (ranking kb.get_all query)) ∧
    (kb.get_all.filter recordHasEmbedding = [] → kb.search_similar query k = []) := by
  refine ⟨search_similar_eq kb query k, ranking_perm _ _,
    fun qa s => mem_scoredEntries kb.get_all query qa s, ranking_sorted _ _,
    fun a b => ranking_tie_stable kb.get_all query a b, fun h => ?_⟩
  have : scoredEntries kb.get_all query = [] := by
    unfold scoredEntries
    rw [h, List.filterMap_nil]
  rw [search_similar_eq, this, List.mergeSort_nil, List.take_nil]

/-- Witness for C2: two tied candidates (cosine 1 each) stay in storage
order in the ranking. -/
theorem C2_search_scores_sorts_truncates_witness :
    [(⟨1, "qa", "a1", "f1", "", some [1, 0]⟩, ((1 : ℚ), (1 : ℚ))),
     (⟨2, "qb", "a2", "f2", "", some [2, 0]⟩, ((2 : ℚ), (4 : ℚ)))].Sublist
      (ranking (KnowledgeBase.mk
        [⟨1, "qa", "a1", "f1", "", some [1, 0]⟩,
         ⟨2, "qb", "a2", "f2", "", some [2, 0]⟩] 3).get_all [1, 0]) := by
  have htie : simVal (sumSq [1, 0]) ((1 : ℚ), (1 : ℚ)) =
      simVal (sumSq [1, 0]) ((2 : ℚ), (4 : ℚ)) := by
    have h1 : sumSq [1, 0] = 1 := by with_unfolding_all rfl
    unfold simVal
    rw [h1]
    push_cast
    rw [show (4 : ℝ) = 2 ^ 2 by norm_num, Real.sqrt_sq (by norm_num)]
    norm_num
  exact (C2_search_scores_sorts_truncates
      (KnowledgeBase.mk
        [⟨1, "qa", "a1", "f1", "", some [1, 0]⟩,
         ⟨2, "qb", "a2", "f2", "", some [2, 0]⟩] 3) [1, 0] 5).2.2.2.2.1
    _ _ (by with_unfolding_all decide) htie

/-- Counterexample to C2 as stated: a candidate that possesses a
fingerprint (a truthy, non-empty stored vector) is *not* scored when that
vector has zero magnitude — the search returns the empty list although one
fingerprinted candidate exists and `top_k = 5`. -/
theorem C2_fingerprinted_zero_vector_not_scored :
    recordHasEmbedding ⟨1, "q", "a", "f.xlsx", "", some [0]⟩ = true ∧
    KnowledgeBase.search_similar ⟨[⟨1, "q", "a", "f.xlsx", "", some [0]⟩], 2⟩
      [1] 5 = [] := by
  constructor
  · rfl
  · with_unfolding_all rfl

/-- C5 (amended): when no two scored candidates have exactly equal cosine
scores, the similarity search returns the *identical* ranked list — same
candidates, same scores, same order — for any permutation of the stored
pool.  (With exact ties the multiset of scores is still order-independent,
but which of the tied candidates crosses the `top_k` boundary follows
storage order, so the returned top-K *set* can change under permutation:
see `C5_boundary_tie_depends_on_order`.)  Tie freedom is expressed through
the decidable comparison `scoreLe`, which by `scoreLe_iff_simVal_le`
coincides with comparison of the real cosine values. -/
theorem C5_ranking_permutation_invariant (kb kb' : KnowledgeBase)
    (query : List ℚ) (k : Nat) (hperm : kb.records.Perm kb'.records)
    (hdist : (scoredEntries kb.get_all query).Pairwise
      (fun a b => ¬(scoreLe a.2 b.2 = true ∧ scoreLe b.2 a.2 = true))) :
    kb.search_similar query k = kb'.search_similar query k := by
  rw [search_similar_eq, search_similar_eq]
  have : ranking kb.get_all query = ranking kb'.get_all query :=
    ranking_eq_of_perm query hperm hdist
  unfold ranking at this
  rw [this]

/-- Witness for C5: two candidates with distinct cosine scores, permuted. -/
theorem C5_ranking_permutation_invariant_witness :
    KnowledgeBase.search_similar
      ⟨[⟨1, "qa", "a1", "f1", "", some [1, 0]⟩,
        ⟨2, "qb", "a2", "f2", "", some [1, 1]⟩], 3⟩ [1, 0] 5 =
    KnowledgeBase.search_similar
      ⟨[⟨2, "qb", "a2", "f2", "", some [1, 1]⟩,
        ⟨1, "qa", "a1", "f1", "", some [1, 0]⟩], 3⟩ [1, 0] 5 :=
  C5_ranking_permutation_invariant _ _ [1, 0] 5
    (List.Perm.swap _ _ [])
    (by with_unfolding_all decide)

/-- Counterexample to C5 as stated: two candidates with *identical*
fingerprints (hence exactly equal scores) in permuted pools; with
`top_k = 1` the first pool returns record 1 and the permuted pool returns
record 2 — the top-K set of candidates is not invariant under re-ordering
when a tie straddles the truncation boundary. -/
theorem C5_boundary_tie_depends_on_order :
    ([⟨1, "qa", "a1", "f1", "", some [1, 0]⟩,
      ⟨2, "qb", "a2", "f2", "", some [1, 0]⟩] : List StoredQA).Perm
      [⟨2, "qb", "a2", "f2", "", some [1, 0]⟩,
       ⟨1, "qa", "a1", "f1", "", some [1, 0]⟩] ∧
    (KnowledgeBase.search_similar
      ⟨[⟨1, "qa", "a1", "f1", "", some [1, 0]⟩,
        ⟨2, "qb", "a2", "f2", "", some [1, 0]⟩], 3⟩ [1, 0] 1).map
        (fun e => e.1.id) = [1] ∧
    (KnowledgeBase.search_similar
      ⟨[⟨2, "qb", "a2", "f2", "", some [1, 0]⟩,
        ⟨1, "qa", "a1", "f1", "", some [1, 0]⟩], 3⟩ [1, 0] 1).map
        (fun e => e.1.id) = [2] := by
  refine ⟨List.Perm.swap _ _ [], ?_, ?_⟩
  · with_unfolding_all rfl
  · with_unfolding_all rfl

/-- C8: the synthesizer parses the service response permissively in two
stages — a payload that already starts with `{` is parsed directly, and
otherwise the brace-delimited span the regex finds in the prose-wrapped
text is parsed, so wrapping a payload in brace-free prose does not change
the result; the confidence field is coerced with `int(...)`; and when the
response omits `needs_review`, it defaults to `confidence < 70`. -/
theorem C8_permissive_parse_coercion_default :
    (∀ s : String, headIsLBrace s = true → parsePayload s = loads s) ∧
    (∀ pre s post : String,
      pre.toList ≠ [] → '{' ∉ pre.toList → '}' ∉ post.toList →
      s.toList ≠ [] → s.toList.head? = some '{' → s.toList.getLast? = some '}' →
      parsePayload (pre ++ s ++ post) = loads s) ∧
    (∀ (question : String) (pairs : List CtxPair) (text : String)
        (fields : List (String × Json)) (c : Int),
      parsePayload (pyStrip text) = .ok (.obj fields) →
      pyInt ((objGet fields "confidence").getD (.num 50)) = .ok c →
      objGet fields "needs_review" = none →
      AnswerGenerator.generate_with_claude question pairs (.ok text) =
        .ok { question := question,
              suggested_answer := (objGet fields "answer").getD (.str ""),
              confidence := c,
              needs_review := .bool (decide (c < 70)),
              source_questions := pairs,
              reasoning := (objGet fields "reasoning").getD (.str "") }) := by
  refine ⟨parsePayload_direct, parsePayload_wrapped, ?_⟩
  intro question pairs text fields c hp hc hnr
  have h := attemptGenerate_parsed question pairs text fields c hp hc
  rw [hnr] at h
  simp only [Option.getD_none] at h
  exact generate_with_claude_of_attempt_ok _ _ _ _ h

/-- Witness for C8: a payload wrapped in prose, with `needs_review`
omitted and confidence 85, parses to the same answer with
`needs_review = (85 < 70) = false`. -/
theorem C8_permissive_parse_coercion_default_witness :
    AnswerGenerator.generate_with_claude "Q" []
      (.ok "Here is the JSON: \x7b\"answer\": \"Yes\", \"confidence\": 85\x7d hope it helps") =
      .ok { question := "Q", suggested_answer := .str "Yes", confidence := 85,
            needs_review := .bool false, source_questions := [],
            reasoning := .str "" } :=
  C8_permissive_parse_coercion_default.2.2 "Q" []
    "Here is the JSON: \x7b\"answer\": \"Yes\", \"confidence\": 85\x7d hope it helps"
    [("answer", .str "Yes"), ("confidence", .num 85)] 85
    (by with_unfolding_all rfl) (by with_unfolding_all rfl) rfl

theorem sumSqR_replicate_zero (n : Nat) : sumSqR (List.replicate n (0 : ℝ)) = 0 := by
  unfold sumSqR
  simp

theorem sumSq_pos_of_sum_pos (v : List ℚ) (h : 0 < v.sum) : 0 < sumSq v := by
  obtain ⟨x, hx, hx0⟩ := exists_pos_of_sum_pos v h
  exact sumSq_pos_of_mem hx hx0.ne'

theorem sumSqR_normalized_cast (raw : List ℚ) (h : 0 < sumSq raw) :
    sumSqR (normalizeVec (raw.map (fun q : ℚ => (q : ℝ)))) = 1 := by
  have hpos : 0 < sumSqR (raw.map (fun q : ℚ => (q : ℝ))) := by
    rw [sumSqR_map_cast]
    exact_mod_cast h
  exact sumSqR_normalizeVec _ hpos

theorem sum_rawLocalVec_pos (text : String) (h : keptWords text ≠ []) :
    0 < sumSq (rawLocalVec text 256) := by
  apply sumSq_pos_of_sum_pos
  rw [sum_rawLocalVec]
  have hlen : 0 < (keptWords text).length := List.length_pos.mpr h
  have : (0 : ℚ) < ((keptWords text).length : ℚ) := by exact_mod_cast hlen
  linarith

theorem sum_rawFeaturesVec_pos (features : List String) (h : features ≠ []) :
    0 < sumSq (rawFeaturesVec features 256) := by
  apply sumSq_pos_of_sum_pos
  rw [sum_rawFeaturesVec]
  have hlen : 0 < features.length := List.length_pos.mpr h
  have : (0 : ℚ) < (features.length : ℚ) := by exact_mod_cast hlen
  linarith

theorem generate_embedding_zero_of_kept_nil (text : String)
    (h : keptWords text = []) :
    SimpleEmbeddings.generate_embedding text 256 = List.replicate 256 (0 : ℝ) := by
  unfold SimpleEmbeddings.generate_embedding
  have hraw : rawLocalVec text 256 = List.replicate 256 0 := by
    unfold rawLocalVec
    rw [h, List.foldl_nil]
  rw [hraw, List.map_replicate, show ((0 : ℚ) : ℝ) = (0 : ℝ) by norm_num]
  exact normalizeVec_of_zero _ (sumSqR_replicate_zero 256)

theorem features_to_vector_zero_of_nil (features : List String)
    (h : features = []) :
    EmbeddingsGenerator.features_to_vector features 256 =
      List.replicate 256 (0 : ℝ) := by
  unfold EmbeddingsGenerator.features_to_vector
  have hraw : rawFeaturesVec features 256 = List.replicate 256 0 := by
    unfold rawFeaturesVec
    rw [h, List.foldl_nil]
  rw [hraw, List.map_replicate, show ((0 : ℚ) : ℝ) = (0 : ℝ) by norm_num]
  exact normalizeVec_of_zero _ (sumSqR_replicate_zero 256)

/-- C6: both encoding strategies return an L2-normalised fingerprint — if
the input yields at least one feature, the Euclidean norm of the output is
exactly 1, and the all-zero vector is returned exactly when the input
yields zero features (for the local strategy: every token was a stop word
or had length ≤ 2; for the assisted strategy: the feature list is
empty). -/
theorem C6_fingerprint_normalized :
    (∀ text : String, keptWords text ≠ [] →
      Real.sqrt (sumSqR (SimpleEmbeddings.generate_embedding text 256)) = 1) ∧
    (∀ text : String,
      SimpleEmbeddings.generate_embedding text 256 = List.replicate 256 (0 : ℝ) ↔
        keptWords text = []) ∧
    (∀ features : List String, features ≠ [] →
      Real.sqrt (sumSqR (EmbeddingsGenerator.features_to_vector features 256)) = 1) ∧
    (∀ features : List String,
      EmbeddingsGenerator.features_to_vector features 256 =
          List.replicate 256 (0 : ℝ) ↔ features = []) := by
  have hloc : ∀ text : String, keptWords text ≠ [] →
      sumSqR (SimpleEmbeddings.generate_embedding text 256) = 1 := by
    intro text h
    unfold SimpleEmbeddings.generate_embedding
    exact sumSqR_normalized_cast _ (sum_rawLocalVec_pos text h)
  have hfeat : ∀ features : List String, features ≠ [] →
      sumSqR (EmbeddingsGenerator.features_to_vector features 256) = 1 := by
    intro features h
    unfold EmbeddingsGenerator.features_to_vector
    exact sumSqR_normalized_cast _ (sum_rawFeaturesVec_pos features h)
  refine ⟨fun text h => by rw [hloc text h, Real.sqrt_one], fun text => ?_,
    fun features h => by rw [hfeat features h, Real.sqrt_one], fun features => ?_⟩
  · constructor
    · intro hz
      by_contra h
      have h1 := hloc text h
      rw [hz, sumSqR_replicate_zero] at h1
      norm_num at h1
    · exact generate_embedding_zero_of_kept_nil text
  · constructor
    · intro hz
      by_contra h
      have h1 := hfeat features h
      rw [hz, sumSqR_replicate_zero] at h1
      norm_num at h1
    · exact features_to_vector_zero_of_nil features

/-- Witness for C6: the scenario text keeps the tokens `data`,
`encryption`, `policy` (dropping "what", "is", "your"), so its
fingerprint has norm exactly 1. -/
theorem C6_fingerprint_normalized_witness :
    Real.sqrt (sumSqR (SimpleEmbeddings.generate_embedding
      "What is your data encryption policy?" 256)) = 1 :=
  C6_fingerprint_normalized.1 "What is your data encryption policy?" (by decide)

/-- C7 (amended): the local strategy equals the claim-side description —
case-folded word tokens minus stop words and short tokens, 4 digest byte
pairs per occurrence, each reduced modulo the dimension, one unit per
pair — and the raw-word fallback scheme equals the same description with
unfiltered tokens and **2** digest byte pairs per occurrence (the claim
said 1). -/
theorem C7_bucket_schemes :
    (∀ text : String, rawLocalVec text 256 = specLocalVec text 256) ∧
    (∀ text : String, rawSimpleVec text 256 = specFallbackVec text 256) := by
  constructor
  · intro text
    rw [rawLocalVec_eq,
      foldl_bumpList_eq_counts (localPositions 256) (keptWords text) 256
        (fun w => localPositions_lt 256 (by norm_num) w)]
    unfold specLocalVec
    simp only [localPositions_bytes]
  · intro text
    rw [rawSimpleVec_eq,
      foldl_bumpList_eq_counts (fallbackPositions 256) (findallWords text) 256
        (fun w => fallbackPositions_lt 256 (by norm_num) w)]
    unfold specFallbackVec
    simp only [fallbackPositions_bytes]

set_option maxRecDepth 100000 in
/-- Counterexample to C7 as stated: the claim's "the raw-word scheme …
increments 1 bucket position per token" would make the total mass of the
fallback vector equal the token count; for `"hello"` (one token) the
fallback vector has total mass 2 — two byte pairs, hence two bucket
increments per token. -/
theorem C7_fallback_not_one_position :
    ¬ ((rawSimpleVec "hello" 256).sum = ((findallWords "hello").length : ℚ)) := by
  have h2 : (rawSimpleVec "hello" 256).sum = 2 := by with_unfolding_all rfl
  have h1 : ((findallWords "hello").length : ℚ) = 1 := by with_unfolding_all rfl
  rw [h2, h1]
  norm_num
